import Mathlib

/-!
# show-pagemap: page decoding, aggregation, counter table, region listing, owner lookup

A shallow embedding of `show-pagemap.c`.  Each definition carries the name of the C
function it follows.  Conventions:

* bytes, addresses, raw entries and indices are natural numbers; where the C code
  computes in `uint64_t` on values that come from its input (addresses, hexadecimal
  accumulation, byte offsets, `idx * 1.5`) the reduction modulo `2 ^ 64` or the loss of
  the conversion is written out;
* the page counters (`g_summary` and the slots of the counter table) are `uint64_t` too:
  every `+=` on them is reduced modulo `2 ^ 64`;
* `realloc` may refuse a request: an `allocator` says which byte counts it grants;
* a run that the C standard leaves undefined, or that ends the process, is not continued:
  the functions return the last state reached together with a `status`;
* loops over the read buffer take the number of iterations they may use as their first
  numeric argument; each of them moves `x` forward and needs `x + 1 < BUFSIZ` to do so,
  and the callers pass `BUFSIZ`, which they cannot use up;
* `BUFSIZ` comes from `<stdio.h>` and is an argument of the functions that use the buffer.
-/

namespace ShowPagemap

/-! ## Sparse counter table -/

/-- How a call ended. -/
inductive status where
  /-- the call returned normally -/
  | ok
  /-- an access addressed a slot past the end of the block `a->ptr` (or of `buffer`) -/
  | out_of_block
  /-- there is no block to write to: `idx * 1.5` does not fit `uint64_t`, or `realloc`
  returned `NULL` and `memset` writes through it -/
  | no_block
  /-- `exit(1)` was called -/
  | exited
deriving DecidableEq, Repr

/-- The struct `var_array_t`: `ptr` is the content of the heap block (one entry per
`uint64_t` slot, `[]` for `NULL`), `size` the field `size`. -/
structure var_array_t where
  ptr : List Nat
  size : Nat
deriving DecidableEq, Repr

/-- The block holds exactly `size` slots. -/
def var_array_t.wf (a : var_array_t) : Prop := a.ptr.length = a.size

instance (a : var_array_t) : Decidable a.wf := by
  unfold var_array_t.wf; infer_instance

/-- The function `init_array`. -/
def init_array : var_array_t := { ptr := [], size := 0 }

/-- Rounding of a natural number to 53 significant bits, ties to even: the value of a
conversion to `double`, and of a `double` product whose exact value is `m` times a power
of two.  Numbers below `2 ^ 53` are representable. -/
def round_to_double (m : Nat) : Nat :=
  if m < 2 ^ 53 then m
  else
    let e := Nat.log2 m - 52
    let q := m / 2 ^ e
    let r := m % 2 ^ e
    if 2 ^ e < 2 * r ∨ (2 * r = 2 ^ e ∧ q % 2 = 1) then (q + 1) * 2 ^ e else q * 2 ^ e

/-- The initialiser `uint64_t new_size = idx * 1.5;`: `idx` is converted to `double`,
multiplied by `1.5` (computed here in units of one half), and the product is truncated
to `uint64_t`; `none` when the truncated value is not below `2 ^ 64`. -/
def grown_size (idx : Nat) : Option Nat :=
  let p := round_to_double (3 * round_to_double idx)
  if p / 2 < 2 ^ 64 then some (p / 2) else none

/-- The allocator as `realloc` shows it: `grants bytes` tells whether a request of that
many bytes is met, `fresh` is the content it leaves in slots that are new. -/
structure allocator where
  grants : Nat → Bool
  fresh : Nat

/-- The call `realloc(ptr, bytes)`: `none` for `NULL`; otherwise a block of `bytes / 8`
slots, of which the first keep their content. -/
def realloc (m : allocator) (ptr : List Nat) (bytes : Nat) : Option (List Nat) :=
  if m.grants bytes then
    some (ptr.take (bytes / 8) ++ List.replicate (bytes / 8 - ptr.length) m.fresh)
  else none

/-- The call `memset(ptr + start, 0, count * sizeof(uint64_t))` on a block that holds the
slots `start .. start + count - 1`. -/
def memset_zero (ptr : List Nat) (start count : Nat) : List Nat :=
  ptr.take start ++ List.replicate count 0 ++ ptr.drop (start + count)

/-- Table and status after one `put_or_append`. -/
structure put_result where
  table : var_array_t
  st : status
deriving DecidableEq, Repr

/-- The statement `a->ptr[idx] += value;` on `uint64_t` slots. -/
def store (a : var_array_t) (idx value : Nat) : put_result :=
  if idx < a.ptr.length then
    { table := { a with ptr := a.ptr.set idx ((a.ptr.getD idx 0 + value) % 2 ^ 64) },
      st := status.ok }
  else { table := a, st := status.out_of_block }

/-- The function `put_or_append`.  The byte counts `new_size * sizeof(uint64_t)` and
`(new_size - a->size) * sizeof(uint64_t)` are computed in `size_t` and may wrap (`new_size`
is never below `a->size` here).  When `realloc` returns `NULL` the code only prints a
message: `a->ptr` is `NULL` from then on and `memset` writes through it.  When the block
is too short for the `memset` (the byte count has wrapped) the write leaves the block. -/
def put_or_append (m : allocator) (a : var_array_t) (idx value : Nat) : put_result :=
  if a.size < idx then
    match grown_size idx with
    | none => { table := a, st := status.no_block }
    | some new_size =>
      match realloc m a.ptr (new_size * 8 % 2 ^ 64) with
      | none => { table := { ptr := [], size := a.size }, st := status.no_block }
      | some blk =>
        let count := (new_size - a.size) * 8 % 2 ^ 64
        if a.size * 8 + count ≤ blk.length * 8 then
          store { ptr := memset_zero blk a.size (count / 8), size := new_size } idx value
        else { table := { ptr := blk, size := a.size }, st := status.out_of_block }
  else store a idx value

/-- Tables produced from `init_array` by calls of `put_or_append` that returned normally. -/
inductive reachable (m : allocator) : var_array_t → Prop where
  | init : reachable m init_array
  | put (a : var_array_t) (idx value : Nat) :
      reachable m a → (put_or_append m a idx value).st = status.ok →
      reachable m (put_or_append m a idx value).table

/-! ## Page entries and the aggregator -/

/-- The option flags `o_show_details`, `o_show_cgroup`, `o_print_refs`, `o_print_map_name`. -/
structure options where
  o_show_details : Bool
  o_show_cgroup : Bool
  o_print_refs : Bool
  o_print_map_name : Bool
deriving DecidableEq, Repr

/-- The struct `summary_t`. -/
structure summary_t where
  total_pages : Nat
  total_active_pages : Nat
  total_shared_pages : Nat
deriving DecidableEq, Repr

/-- The two per-frame files: `none` when `open` fails, otherwise the result of an 8-byte
`pread` at a byte offset (`none` for a short or failed read). -/
structure frame_tables where
  kpagecount : Option (Nat → Option Nat)
  kpagecgroup : Option (Nat → Option Nat)

/-- A call of one of the two frame-table readers, with the frame number passed. -/
inductive frame_lookup where
  | pagecount (pfn : Nat)
  | pagecgroup (pfn : Nat)
deriving DecidableEq, Repr

/-- The function `read_pagecount`: the value returned, and the list of reader calls made
so far with this call added. -/
def read_pagecount (env : frame_tables) (pfn : Nat) (calls : List frame_lookup) :
    Nat × List frame_lookup :=
  (match env.kpagecount with
    | none => 0
    | some file =>
      match file (pfn * 8 % 2 ^ 64) with
      | none => 0
      | some data => data,
   calls ++ [frame_lookup.pagecount pfn])

/-- The function `read_pagecgroup`: the value returned (`none` stands for `exit(1)`), and
the list of reader calls made so far with this call added. -/
def read_pagecgroup (env : frame_tables) (pfn : Nat) (calls : List frame_lookup) :
    Option Nat × List frame_lookup :=
  (match env.kpagecgroup with
    | none => none
    | some file =>
      match file (pfn * 8 % 2 ^ 64) with
      | none => some 0
      | some data => some data,
   calls ++ [frame_lookup.pagecgroup pfn])

/-- The fields of a page entry as `dump_page` computes them from the raw value. -/
structure page_entry where
  virtual_address : Nat
  frame_number : Nat
  soft_dirty : Nat
  exclusive_map : Nat
  shared_or_file : Nat
  swapped : Nat
  present : Nat
deriving DecidableEq, Repr

/-- The masks and shifts of `dump_page` (lines 218, 221 and 229-233). -/
def decode_entry (address data : Nat) : page_entry :=
  { virtual_address := address
    frame_number := data &&& 0x7fffffffffffff
    soft_dirty := (data >>> 55) &&& 1
    exclusive_map := (data >>> 56) &&& 1
    shared_or_file := (data >>> 61) &&& 1
    swapped := (data >>> 62) &&& 1
    present := (data >>> 63) &&& 1 }

/-- Conversion of a `uint64_t` to `int64_t`. -/
def to_int64 (v : Nat) : Int :=
  if v % 2 ^ 64 < 2 ^ 63 then (v % 2 ^ 64 : Nat) else ((v % 2 ^ 64 : Nat) : Int) - 2 ^ 64

/-- The line `dump_page` prints under `o_show_details`. -/
structure detail_line where
  entry : page_entry
  refs : Nat
  cgroup : Option Int
  name : Option (List Nat)
deriving DecidableEq, Repr

/-- The globals `g_summary` and `a_per_cgroup_stats`. -/
structure globals where
  g_summary : summary_t
  a_per_cgroup_stats : var_array_t
deriving DecidableEq, Repr

/-- What one `dump_page` call leaves behind. -/
structure dump_result where
  g : globals
  st : status
  printed : Option detail_line
  lookups : List frame_lookup
  cnt : Nat
  cgroup_id : Int
deriving DecidableEq, Repr

/-- The function `dump_page`.  `lookups` is the list of the reader calls it made. -/
def dump_page (o : options) (env : frame_tables) (m : allocator) (g : globals)
    (address data : Nat) (map_name : Option (List Nat)) : dump_result :=
  let e := decode_entry address data
  let pfn := e.frame_number
  let rc : Nat × List frame_lookup :=
    if o.o_print_refs then (if pfn ≠ 0 then read_pagecount env pfn [] else (0, []))
    else (0, [])
  let cnt := rc.1
  let page_is_present := e.present
  let rg : Option Int × List frame_lookup :=
    if o.o_show_cgroup then
      let r := read_pagecgroup env pfn rc.2
      (r.1.map to_int64, r.2)
    else (some (-1), rc.2)
  match rg.1 with
  | none =>
    { g := g, st := status.exited, printed := none, lookups := rg.2, cnt := cnt,
      cgroup_id := -1 }
  | some cgroup_id =>
    let printed :=
      if o.o_show_details then
        some { entry := e, refs := cnt,
               cgroup := if cgroup_id ≠ -1 then some cgroup_id else none,
               name := map_name }
      else none
    let s := g.g_summary
    let s := { s with total_pages := (s.total_pages + 1) % 2 ^ 64 }
    let s := { s with total_active_pages :=
      (s.total_active_pages + (if page_is_present ≠ 0 then 1 else 0)) % 2 ^ 64 }
    let s := { s with total_shared_pages :=
      (s.total_shared_pages + (if cnt > 1 then 1 else 0)) % 2 ^ 64 }
    if o.o_show_cgroup ∧ cgroup_id > 0 ∧ page_is_present ≠ 0 then
      let r := put_or_append m g.a_per_cgroup_stats cgroup_id.toNat 1
      { g := { g_summary := s, a_per_cgroup_stats := r.table }, st := r.st,
        printed := printed, lookups := rg.2, cnt := cnt, cgroup_id := cgroup_id }
    else
      { g := { g_summary := s, a_per_cgroup_stats := g.a_per_cgroup_stats }, st := status.ok,
        printed := printed, lookups := rg.2, cnt := cnt, cgroup_id := cgroup_id }

/-- A sequence of `dump_page` calls, each given as address, raw entry and name; a call
that does not return normally ends the run, and the state it left is the result. -/
def dump_pages (o : options) (env : frame_tables) (m : allocator) (g : globals) :
    List (Nat × Nat × Option (List Nat)) → globals × status
  | [] => (g, status.ok)
  | (address, data, map_name) :: rest =>
    let r := dump_page o env m g address data map_name
    if r.st = status.ok then dump_pages o env m r.g rest else (r.g, r.st)

/-- The two inequalities between the counters of the summary. -/
def summary_ok (s : summary_t) : Prop :=
  s.total_active_pages ≤ s.total_pages ∧ s.total_shared_pages ≤ s.total_pages

instance (s : summary_t) : Decidable (summary_ok s) := by
  unfold summary_ok; infer_instance

/-! ## Walking a range of pages -/

/-- The constant `PAGE_SIZE`. -/
def PAGE_SIZE : Nat := 4096

/-- The loop of `read_vma`: the arguments of the successive `dump_page` calls, as long
as each call returns.  `pagemap` is the result of an 8-byte `pread` at a byte offset
(`none` for a short or failed read); the first argument bounds the number of iterations. -/
def read_vma_loop (pagemap : Nat → Option Nat) (end_ : Nat) (map_name : Option (List Nat)) :
    Nat → Nat → List (Nat × Nat × Option (List Nat))
  | 0, _ => []
  | n + 1, start =>
    if start < end_ then
      let i := (start / PAGE_SIZE) * 8
      match pagemap i with
      | none => []
      | some val =>
        (i, val, map_name) :: read_vma_loop pagemap end_ map_name n ((start + PAGE_SIZE) % 2 ^ 64)
    else []

/-- The `dump_page` calls of `read_vma`.  The bound on the iterations is exact for every
range with `end_ ≤ 2 ^ 64 - PAGE_SIZE`; above that `start += PAGE_SIZE` wraps and the C
loop only ends at a failed read. -/
def read_vma_calls (pagemap : Nat → Option Nat) (start end_ : Nat)
    (map_name : Option (List Nat)) : List (Nat × Nat × Option (List Nat)) :=
  read_vma_loop pagemap end_ map_name ((end_ - start) / PAGE_SIZE + 1) start

/-- The function `read_vma`. -/
def read_vma (o : options) (env : frame_tables) (m : allocator) (g : globals)
    (pagemap : Nat → Option Nat) (start end_ : Nat) (map_name : Option (List Nat)) :
    globals × status :=
  dump_pages o env m g (read_vma_calls pagemap start end_ map_name)

/-! ## Region listing -/

/-- The bytes of a string. -/
def bytes (s : String) : List Nat := s.toList.map Char.toNat

/-- The walk back to the start of the line (lines 317-318), from `x = i - 1`. -/
def line_start (buf : List Nat) : Nat → Nat
  | 0 => if buf.getD 0 0 = 10 then 1 else 0
  | x + 1 => if buf.getD (x + 1) 0 ≠ 10 then line_start buf x else x + 2

/-- The two loops that accumulate a hexadecimal number (lines 321-331 and 336-347), up to
the byte `stop`; returns the new `x` and the accumulated value. -/
def hex_loop (BUFSIZ stop : Nat) (buf : List Nat) : Nat → Nat → Nat → Nat × Nat
  | 0, x, acc => (x, acc)
  | n + 1, x, acc =>
    if buf.getD x 0 ≠ stop ∧ x + 1 < BUFSIZ then
      let c := buf.getD x 0
      let acc := acc * 16 % 2 ^ 64
      if 48 ≤ c ∧ c ≤ 57 then hex_loop BUFSIZ stop buf n (x + 1) ((acc + (c - 48)) % 2 ^ 64)
      else if 97 ≤ c ∧ c ≤ 102 then
        hex_loop BUFSIZ stop buf n (x + 1) ((acc + (c - 97 + 10)) % 2 ^ 64)
      else (x + 1, acc)
    else (x, acc)

/-- The loops of the shape `while(buffer[x] != c && x+1 < sizeof buffer) x ++;` when
`eq` is false, `while(buffer[x] == c && ...) x ++;` when `eq` is true. -/
def skip_loop (BUFSIZ c : Nat) (eq : Bool) (buf : List Nat) : Nat → Nat → Nat
  | 0, x => x
  | n + 1, x =>
    if (if eq then buf.getD x 0 = c else buf.getD x 0 ≠ c) ∧ x + 1 < BUFSIZ then
      skip_loop BUFSIZ c eq buf n (x + 1)
    else x

/-- The loop `for(int field = 0; field < 4; field ++)` (lines 352-355). -/
def skip_fields (BUFSIZ : Nat) (buf : List Nat) : Nat → Nat → Nat
  | 0, x => x
  | k + 1, x => skip_fields BUFSIZ buf k (skip_loop BUFSIZ 32 false buf BUFSIZ (x + 1))

/-- The string at `buffer + x`: the bytes up to the first zero byte. -/
def c_string (buf : List Nat) (x : Nat) : List Nat := (buf.drop x).takeWhile (fun b => b ≠ 0)

/-- One range handed to `read_vma`. -/
structure vma_call where
  low : Nat
  high : Nat
  lib_name : Option (List Nat)
deriving DecidableEq, Repr

/-- The body of `if(buffer[i] == '\n' && i)` (lines 316-368): the `read_vma` call, the
buffer after line 368, and whether every access stayed inside the buffer. -/
def parse_line (o : options) (BUFSIZ : Nat) (buf : List Nat) (i : Nat) :
    vma_call × List Nat × status :=
  let x := line_start buf (i - 1)
  let (x, low) := hex_loop BUFSIZ 45 buf BUFSIZ x 0
  let x := skip_loop BUFSIZ 45 false buf BUFSIZ x
  let x := if buf.getD x 0 = 45 then x + 1 else x
  let (x, high) := hex_loop BUFSIZ 32 buf BUFSIZ x 0
  if o.o_print_map_name then
    let x := skip_fields BUFSIZ buf 4 x
    let x := skip_loop BUFSIZ 32 true buf BUFSIZ x
    let y := skip_loop BUFSIZ 10 false buf BUFSIZ x
    ({ low := low, high := high, lib_name := some (c_string (buf.set y 0) x) },
      buf.set y 10, if y < BUFSIZ then status.ok else status.out_of_block)
  else
    ({ low := low, high := high, lib_name := none }, buf,
      if x < BUFSIZ then status.ok else status.out_of_block)

/-- The loop `for(size_t i = offset; i < (size_t)length; i ++)` (lines 311-370); the
first argument is `length - i`. -/
def scan_buffer (o : options) (BUFSIZ : Nat) :
    Nat → Nat → List Nat → List vma_call × List Nat × status
  | 0, _, buf => ([], buf, status.ok)
  | n + 1, i, buf =>
    if buf.getD i 0 = 10 ∧ i ≠ 0 then
      let (call, buf2, st) := parse_line o BUFSIZ buf i
      if st = status.ok then
        let (calls, buf3, st3) := scan_buffer o BUFSIZ n (i + 1) buf2
        (call :: calls, buf3, st3)
      else ([call], buf2, st)
    else scan_buffer o BUFSIZ n (i + 1) buf

/-- The loop `for(;;)` of `parse_maps` (lines 305-371): `chunks` are the results of the
successive `read` calls (an empty one stands for a result `<= 0`), `buf` the content of
`buffer`.  `offset` is `0` throughout, so each chunk lands at the start of the buffer. -/
def read_loop (o : options) (BUFSIZ : Nat) : List (List Nat) → List Nat → List vma_call × status
  | [], _ => ([], status.ok)
  | chunk :: rest, buf =>
    if chunk.length = 0 then ([], status.ok)
    else
      let offset := 0
      let length := chunk.length + offset
      let buf := buf.take offset ++ chunk ++ buf.drop (offset + chunk.length)
      let (calls, buf2, st) := scan_buffer o BUFSIZ (length - offset) offset buf
      if st = status.ok then
        let (calls2, st2) := read_loop o BUFSIZ rest buf2
        (calls ++ calls2, st2)
      else (calls, st)

/-- The ranges `parse_maps` hands to `read_vma`, in order, as long as each `read_vma`
returns.  `pagemap_opens` is the success of `open(pagemap_file, O_RDONLY)`, `buf` the
initial content of the `BUFSIZ` bytes of `buffer`. -/
def parse_maps_calls (o : options) (BUFSIZ : Nat) (pagemap_opens : Bool) (buf : List Nat)
    (chunks : List (List Nat)) : List vma_call × status :=
  if pagemap_opens then read_loop o BUFSIZ chunks buf else ([], status.ok)

/-- The `read_vma` calls of a list of ranges, one after the other. -/
def read_vmas (o : options) (env : frame_tables) (m : allocator) (pagemap : Nat → Option Nat)
    (g : globals) : List vma_call → globals × status
  | [] => (g, status.ok)
  | c :: rest =>
    let r := read_vma o env m g pagemap c.low c.high c.lib_name
    if r.2 = status.ok then read_vmas o env m pagemap r.1 rest else r

/-- The function `parse_maps`. -/
def parse_maps (o : options) (env : frame_tables) (m : allocator) (BUFSIZ : Nat)
    (pagemap : Option (Nat → Option Nat)) (buf : List Nat) (chunks : List (List Nat))
    (g : globals) : globals × status :=
  match pagemap with
  | none => (g, status.ok)
  | some file =>
    let r := read_vmas o env m file g (parse_maps_calls o BUFSIZ true buf chunks).1
    if r.2 = status.ok then (r.1, (parse_maps_calls o BUFSIZ true buf chunks).2) else r

/-- A lowercase hexadecimal digit: `0`-`9` or `a`-`f`. -/
def is_hex_digit (c : Nat) : Prop := (48 ≤ c ∧ c ≤ 57) ∨ (97 ≤ c ∧ c ≤ 102)

instance : DecidablePred is_hex_digit := fun c => by
  unfold is_hex_digit; infer_instance

/-- The number a string of hexadecimal digits denotes. -/
def hex_value (s : List Nat) : Nat :=
  s.foldl (fun acc c => acc * 16 + (if c ≤ 57 then c - 48 else c - 97 + 10)) 0

/-- A line `<hex-start>-<hex-end> <perms> <offset> <dev> <inode> <path>` of the region
listing with its newline; `k + 1` spaces stand between the inode and the path. -/
def listing_line (hs he perms offs dev inode : List Nat) (k : Nat) (path : List Nat) :
    List Nat :=
  hs ++ [45] ++ he ++ [32] ++ perms ++ [32] ++ offs ++ [32] ++ dev ++ [32] ++ inode ++
    List.replicate (k + 1) 32 ++ path ++ [10]

/-- The fields of one line of the region listing. -/
structure maps_line where
  hs : List Nat
  he : List Nat
  perms : List Nat
  offs : List Nat
  dev : List Nat
  inode : List Nat
  k : Nat
  path : List Nat
deriving DecidableEq, Repr

/-- The line is of the form described: the two numbers are strings of at most 16
lowercase hexadecimal digits, the four middle fields hold no space and no newline, the
path is not empty and holds no space, no newline and no zero byte. -/
def maps_line.wf (l : maps_line) : Prop :=
  (∀ c ∈ l.hs, is_hex_digit c) ∧ (∀ c ∈ l.he, is_hex_digit c) ∧
  l.hs.length ≤ 16 ∧ l.he.length ≤ 16 ∧
  (∀ b ∈ l.perms, b ≠ 32 ∧ b ≠ 10) ∧ (∀ b ∈ l.offs, b ≠ 32 ∧ b ≠ 10) ∧
  (∀ b ∈ l.dev, b ≠ 32 ∧ b ≠ 10) ∧ (∀ b ∈ l.inode, b ≠ 32 ∧ b ≠ 10) ∧
  l.path ≠ [] ∧ (∀ b ∈ l.path, b ≠ 32 ∧ b ≠ 10 ∧ b ≠ 0)

instance (l : maps_line) : Decidable l.wf := by
  unfold maps_line.wf; infer_instance

/-- The bytes of the line, newline included. -/
def maps_line.text (l : maps_line) : List Nat :=
  listing_line l.hs l.he l.perms l.offs l.dev l.inode l.k l.path

/-- The range the line stands for, with its name. -/
def maps_line.range (l : maps_line) : vma_call :=
  { low := hex_value l.hs, high := hex_value l.he, lib_name := some l.path }

/-- The bytes of several lines, one after the other. -/
def lines_text : List maps_line → List Nat
  | [] => []
  | l :: rest => l.text ++ lines_text rest

/-- The ranges of the lines of several reads, in order. -/
def ranges_of_reads : List (List maps_line) → List vma_call
  | [] => []
  | r :: rest => r.map maps_line.range ++ ranges_of_reads rest

/-! ## Owner lookup -/

/-- The field `d_type` of a directory entry, as far as the code tells the values apart. -/
inductive d_type where
  | DT_UNKNOWN
  | DT_DIR
  | DT_OTHER
deriving DecidableEq, Repr

/-- A directory entry as `readdir` returns it, together with what the file system answers
for its path: `st` is the result of `stat` (`none` when it fails, otherwise `S_ISDIR` and
`st_ino`), `opens` the success of `opendir`, `entries` what `readdir` then returns, in
order. -/
inductive dirent where
  | mk (d_name : List Nat) (d_type : d_type) (st : Option (Bool × Nat)) (opens : Bool)
      (entries : List dirent) : dirent

/-- The path built by the two `snprintf` calls (lines 138-141). -/
def join_path (dirname d_name : List Nat) : List Nat :=
  if dirname.getLast? ≠ some 47 then dirname ++ [47] ++ d_name else dirname ++ d_name

mutual
/-- The call `parse_cgroup_mnt(dirname, target_inode, fname_out)` on the directory behind
an entry: `out` is `*fname_out` before the call, the result is the returned `exit_flag`
and `*fname_out` after it, `none` when `exit(1)` is reached. -/
def parse_cgroup_mnt (dirname : List Nat) (target_inode : Nat) :
    dirent → Option (List Nat) → Option (Nat × Option (List Nat))
  | dirent.mk _ _ _ opens entries, out =>
    if opens then readdir_loop dirname target_inode entries 1 out else none
termination_by structural d => d
/-- The loop `while ((dp = readdir(pDir)) != NULL)` (lines 129-178) over the entries that
are still to come; `exit_flag` is the local variable of that name. -/
def readdir_loop (dirname : List Nat) (target_inode : Nat) :
    List dirent → Nat → Option (List Nat) → Option (Nat × Option (List Nat))
  | [], exit_flag, out => some (exit_flag, out)
  | dirent.mk d_name ty st opens entries :: rest, exit_flag, out =>
    if d_name.head? = some 46 then readdir_loop dirname target_inode rest exit_flag out
    else
      let fname := join_path dirname d_name
      let isDir : Bool :=
        match ty with
        | d_type.DT_UNKNOWN => (match st with | none => false | some (dir, _) => dir)
        | d_type.DT_DIR => true
        | d_type.DT_OTHER => false
      if isDir then
        match st with
        | some (_, st_ino) =>
          if st_ino = target_inode then some (1, some fname)
          else
            match parse_cgroup_mnt fname target_inode (dirent.mk d_name ty st opens entries) out with
            | none => none
            | some (flag, out2) =>
              if flag = 0 then some (flag, out2)
              else readdir_loop dirname target_inode rest flag out2
        | none =>
          match parse_cgroup_mnt fname target_inode (dirent.mk d_name ty st opens entries) out with
          | none => none
          | some (flag, out2) =>
            if flag = 0 then some (flag, out2)
            else readdir_loop dirname target_inode rest flag out2
      else readdir_loop dirname target_inode rest exit_flag out
termination_by structural l => l
end

/-- The function `get_groupid_name`: `root` is the directory at `cgroup_mount` (only its
`opens` and `entries` are used).  The path found is copied into a buffer of 1024 bytes. -/
def get_groupid_name (cgroup_mount : List Nat) (root : dirent) (gid : Nat) :
    List Nat × status :=
  match parse_cgroup_mnt cgroup_mount gid root none with
  | none => ([], status.exited)
  | some (_, some cg_name) =>
    if cg_name.length + 1 ≤ 1024 then (cg_name, status.ok) else (cg_name, status.out_of_block)
  | some (_, none) => (bytes "[ERROR]", status.ok)

mutual
/-- The paths and inode numbers of the directories below an entry that is a directory,
in depth-first order of the directory entries, hidden entries left out. -/
def dirs_below (dirname : List Nat) : dirent → List (List Nat × Nat)
  | dirent.mk _ _ _ _ entries => dirs_in dirname entries
termination_by structural d => d
/-- The list of `dirs_below` over the entries of one directory. -/
def dirs_in (dirname : List Nat) : List dirent → List (List Nat × Nat)
  | [] => []
  | dirent.mk d_name ty st opens entries :: rest =>
    if d_name.head? = some 46 then dirs_in dirname rest
    else
      match st with
      | some (true, st_ino) =>
        (join_path dirname d_name, st_ino) ::
          (dirs_below (join_path dirname d_name) (dirent.mk d_name ty st opens entries) ++
            dirs_in dirname rest)
      | _ => dirs_in dirname rest
termination_by structural l => l
end

/-- The result the listing asks for: the path of the first directory, in depth-first
order, whose inode number is `gid`, and the marker when there is none. -/
def first_match (cgroup_mount : List Nat) (root : dirent) (gid : Nat) : List Nat :=
  match (dirs_below cgroup_mount root).find? (fun p => p.2 = gid) with
  | some p => p.1
  | none => bytes "[ERROR]"

/-! # Theorems -/

/-! ## Counter table -/

theorem round_to_double_near (m : Nat) :
    ∃ E, E * 2 ^ 52 ≤ m ∧ m ≤ round_to_double m + E := by
  unfold round_to_double
  by_cases h : m < 2 ^ 53
  · exact ⟨0, by simp, by rw [if_pos h]; omega⟩
  · have hm : m ≠ 0 := by
      intro h0; subst h0; simp at h
    have h53 : 53 ≤ Nat.log2 m := (Nat.le_log2 hm).2 (by omega)
    have hle : 2 ^ Nat.log2 m ≤ m := Nat.log2_self_le hm
    refine ⟨2 ^ (Nat.log2 m - 52), ?_, ?_⟩
    · rw [← pow_add]
      have : Nat.log2 m - 52 + 52 = Nat.log2 m := by omega
      rw [this]; exact hle
    · simp only [h, if_false]
      have hdm := Nat.div_add_mod m (2 ^ (Nat.log2 m - 52))
      have hlt : m % 2 ^ (Nat.log2 m - 52) < 2 ^ (Nat.log2 m - 52) :=
        Nat.mod_lt _ (by positivity)
      generalize 2 ^ (Nat.log2 m - 52) = E at *
      generalize m / E = q at *
      generalize m % E = r at *
      have hc : E * q = q * E := Nat.mul_comm _ _
      split
      · rw [Nat.add_mul]; omega
      · omega

theorem grown_size_ge (idx n : Nat) (h : grown_size idx = some n) : idx ≤ n := by
  unfold grown_size at h
  obtain ⟨E1, h1, h2⟩ := round_to_double_near idx
  obtain ⟨E2, h3, h4⟩ := round_to_double_near (3 * round_to_double idx)
  generalize round_to_double (3 * round_to_double idx) = p at *
  generalize round_to_double idx = d at *
  simp only at h
  split at h
  · injection h with h
    norm_num at h1 h3
    omega
  · exact absurd h (by simp)

theorem grow_block (m : allocator) (a : var_array_t) (n : Nat) (h : a.wf) (hn : a.size < n)
    (hw : n * 8 < 2 ^ 64) (hgr : m.grants (n * 8) = true) :
    realloc m a.ptr (n * 8 % 2 ^ 64) = some (a.ptr ++ List.replicate (n - a.size) m.fresh) ∧
    (n - a.size) * 8 % 2 ^ 64 / 8 = n - a.size ∧
    a.size * 8 + (n - a.size) * 8 % 2 ^ 64
      ≤ (a.ptr ++ List.replicate (n - a.size) m.fresh).length * 8 ∧
    memset_zero (a.ptr ++ List.replicate (n - a.size) m.fresh) a.size (n - a.size)
      = a.ptr ++ List.replicate (n - a.size) 0 := by
  unfold var_array_t.wf at h
  have e1 : n * 8 % 2 ^ 64 = n * 8 := Nat.mod_eq_of_lt hw
  have e2 : (n - a.size) * 8 % 2 ^ 64 = (n - a.size) * 8 := Nat.mod_eq_of_lt (by omega)
  refine ⟨?_, ?_, ?_, ?_⟩
  · unfold realloc
    rw [e1, if_pos hgr, Nat.mul_div_cancel _ (by norm_num : 0 < 8),
      List.take_of_length_le (by omega), h]
  · rw [e2, Nat.mul_div_cancel _ (by norm_num : 0 < 8)]
  · rw [e2]; simp [h]; omega
  · unfold memset_zero
    have h1 : (a.ptr ++ List.replicate (n - a.size) m.fresh).take a.size = a.ptr := by
      rw [List.take_append_of_le_length (by omega)]
      exact List.take_of_length_le (by omega)
    have h2 : (a.ptr ++ List.replicate (n - a.size) m.fresh).drop (a.size + (n - a.size))
        = [] := by
      apply List.drop_of_length_le
      simp [h]
    rw [h1, h2, List.append_nil]

theorem store_spec (a : var_array_t) (idx value : Nat) (h : a.wf) :
    (store a idx value).table.size = a.size ∧ (store a idx value).table.wf ∧
    (∀ i, i ≠ idx → (store a idx value).table.ptr[i]? = a.ptr[i]?) ∧
    ((store a idx value).st = status.ok ↔ idx < a.size) ∧
    ((store a idx value).st = status.ok ∨ (store a idx value).st = status.out_of_block) ∧
    (idx < a.size →
      (store a idx value).table.ptr[idx]? = some ((a.ptr.getD idx 0 + value) % 2 ^ 64)) := by
  unfold var_array_t.wf at h
  unfold store
  by_cases hi : idx < a.ptr.length
  · rw [if_pos hi]
    refine ⟨rfl, ?_, ?_, ?_, Or.inl rfl, ?_⟩
    · simp [var_array_t.wf, h]
    · intro i hne
      simp [List.getElem?_set, Ne.symm hne]
    · simp; omega
    · intro _; simp [List.getElem?_set, hi]
  · rw [if_neg hi]
    refine ⟨rfl, h, fun _ _ => rfl, ?_, Or.inr rfl, ?_⟩
    · simp; omega
    · intro h2; omega

theorem put_or_append_no_growth (m : allocator) (a : var_array_t) (idx value : Nat)
    (hg : ¬ a.size < idx) : put_or_append m a idx value = store a idx value := by
  unfold put_or_append; rw [if_neg hg]

theorem put_or_append_growth (m : allocator) (a : var_array_t) (idx value n : Nat) (h : a.wf)
    (hg : a.size < idx) (hn : grown_size idx = some n) (hw : n * 8 < 2 ^ 64)
    (hgr : m.grants (n * 8) = true) :
    put_or_append m a idx value
      = store { ptr := a.ptr ++ List.replicate (n - a.size) 0, size := n } idx value := by
  have hge := grown_size_ge idx n hn
  obtain ⟨g1, g2, g3, g4⟩ := grow_block m a n h (by omega) hw hgr
  unfold put_or_append
  rw [if_pos hg, hn]
  simp only [g1]
  rw [if_pos g3, g2, g4]

theorem put_or_append_not_exited (m : allocator) (a : var_array_t) (idx value : Nat) :
    (put_or_append m a idx value).st ≠ status.exited := by
  have hs : ∀ (b : var_array_t), (store b idx value).st ≠ status.exited := by
    intro b; unfold store; split <;> simp
  unfold put_or_append
  split
  · split
    · simp
    · split
      · simp
      · simp only
        split
        · exact hs _
        · simp
  · exact hs _

theorem put_or_append_spec (m : allocator) (a : var_array_t) (idx value : Nat) (h : a.wf)
    (hgrow : a.size < idx →
      ∃ n, grown_size idx = some n ∧ n * 8 < 2 ^ 64 ∧ m.grants (n * 8) = true) :
    a.size ≤ (put_or_append m a idx value).table.size ∧
    idx ≤ (put_or_append m a idx value).table.size ∧
    (put_or_append m a idx value).table.wf ∧
    (∀ i, i < a.size → i ≠ idx →
      (put_or_append m a idx value).table.ptr[i]? = a.ptr[i]?) ∧
    (∀ i, a.size ≤ i → i < (put_or_append m a idx value).table.size → i ≠ idx →
      (put_or_append m a idx value).table.ptr[i]? = some 0) ∧
    ((put_or_append m a idx value).st = status.ok ∨
      (put_or_append m a idx value).st = status.out_of_block) ∧
    ((put_or_append m a idx value).st = status.ok →
      idx < (put_or_append m a idx value).table.size ∧
      (put_or_append m a idx value).table.ptr[idx]?
        = some ((a.ptr.getD idx 0 + value) % 2 ^ 64)) := by
  by_cases hg : a.size < idx
  · obtain ⟨n, hn, hw, hgr⟩ := hgrow hg
    have hge := grown_size_ge idx n hn
    rw [put_or_append_growth m a idx value n h hg hn hw hgr]
    have hwf : var_array_t.wf ⟨a.ptr ++ List.replicate (n - a.size) 0, n⟩ := by
      unfold var_array_t.wf at h ⊢
      simp [h]; omega
    obtain ⟨s1, s2, s3, s4, s6, s5⟩ :=
      store_spec ⟨a.ptr ++ List.replicate (n - a.size) 0, n⟩ idx value hwf
    unfold var_array_t.wf at h
    simp only at s1 s3 s4 s5
    refine ⟨by rw [s1]; omega, by rw [s1]; omega, s2, ?_, ?_, s6, ?_⟩
    · intro i hi hne
      rw [s3 i hne, List.getElem?_append_left (by omega)]
    · intro i h1 h2 hne
      rw [s3 i hne]
      rw [s1] at h2
      rw [List.getElem?_append_right (by omega), List.getElem?_replicate, if_pos (by omega)]
    · intro hok
      have hlt := s4.1 hok
      refine ⟨by rw [s1]; exact hlt, ?_⟩
      rw [s5 hlt]
      have e1 : (a.ptr ++ List.replicate (n - a.size) 0).getD idx 0 = 0 := by
        rw [List.getD_eq_getElem?_getD, List.getElem?_append_right (by omega)]
        simp only [List.getElem?_replicate]
        split <;> rfl
      have e2 : a.ptr.getD idx 0 = 0 := by
        rw [List.getD_eq_getElem?_getD, List.getElem?_eq_none (by omega)]; rfl
      rw [e1, e2]
  · rw [put_or_append_no_growth m a idx value hg]
    obtain ⟨s1, s2, s3, s4, s6, s5⟩ := store_spec a idx value h
    refine ⟨by rw [s1], by rw [s1]; omega, s2, fun i _ hne => s3 i hne, ?_, s6, ?_⟩
    · intro i h1 h2; rw [s1] at h2; omega
    · intro hok
      have hlt := s4.1 hok
      exact ⟨by rw [s1]; exact hlt, s5 hlt⟩

/-- Claim C8, as the code has it: for every counter table (a block of exactly `size`
slots), index and amount, whenever the growth - if the call needs one - gets its block
(`idx * 1.5` fits `uint64_t`, the byte count does not wrap and `realloc` delivers),
`put_or_append` never decreases the size, leaves every slot that was in range and is
not `idx` as it was, and every slot added by the growth, other than `idx`, holds zero.
Consequently, when a larger index `idx > k` has made the table grow, an increment of `k`
returns normally, leaves the size alone, and leaves at `k` the value stored there before
(zero if `k` was outside the table) plus the increment, reduced modulo `2 ^ 64`. -/
theorem put_or_append_frame (m : allocator) (a : var_array_t) (idx value : Nat) (h : a.wf)
    (hgrow : a.size < idx →
      ∃ n, grown_size idx = some n ∧ n * 8 < 2 ^ 64 ∧ m.grants (n * 8) = true) :
    a.size ≤ (put_or_append m a idx value).table.size ∧
    (∀ i, i < a.size → i ≠ idx →
      (put_or_append m a idx value).table.ptr[i]? = a.ptr[i]?) ∧
    (∀ i, a.size ≤ i → i < (put_or_append m a idx value).table.size → i ≠ idx →
      (put_or_append m a idx value).table.ptr[i]? = some 0) ∧
    ((put_or_append m a idx value).st = status.ok ∨
      (put_or_append m a idx value).st = status.out_of_block) ∧
    (∀ k amount, k < idx → a.size < idx →
      (put_or_append m (put_or_append m a idx value).table k amount).st = status.ok ∧
      (put_or_append m (put_or_append m a idx value).table k amount).table.size
        = (put_or_append m a idx value).table.size ∧
      (put_or_append m (put_or_append m a idx value).table k amount).table.ptr[k]?
        = some ((a.ptr.getD k 0 + amount) % 2 ^ 64)) := by
  obtain ⟨p1, hcov, p2, p3, p4, p6, _⟩ := put_or_append_spec m a idx value h hgrow
  refine ⟨p1, p3, p4, p6, ?_⟩
  intro k amount hk hg
  generalize put_or_append m a idx value = r at *
  have hng : ¬ r.table.size < k := by omega
  rw [put_or_append_no_growth m r.table k amount hng]
  obtain ⟨s1, _, _, s4, _, s5⟩ := store_spec r.table k amount p2
  have hlt : k < r.table.size := by omega
  refine ⟨s4.2 hlt, s1, ?_⟩
  rw [s5 hlt]
  have hv : r.table.ptr.getD k 0 = a.ptr.getD k 0 := by
    rw [List.getD_eq_getElem?_getD, List.getD_eq_getElem?_getD]
    by_cases hka : k < a.size
    · rw [p3 k hka (by omega)]
    · rw [p4 k (by omega) hlt (by omega)]
      unfold var_array_t.wf at h
      rw [List.getElem?_eq_none (by omega)]
      rfl
  rw [hv]

/-- An instance of `put_or_append_frame`: on the table `[7, 3]`, index `5` makes the block
grow to `7` slots, slot `1` keeps its `3`, slot `6` is zero, and a later increment of `1`
by `4` gives `7`. -/
theorem put_or_append_frame_witness :
    (⟨[7, 3], 2⟩ : var_array_t).wf ∧
    2 ≤ (put_or_append ⟨fun _ => true, 9⟩ ⟨[7, 3], 2⟩ 5 1).table.size ∧
    (put_or_append ⟨fun _ => true, 9⟩ ⟨[7, 3], 2⟩ 5 1).table.ptr[1]? = some 3 ∧
    (put_or_append ⟨fun _ => true, 9⟩ ⟨[7, 3], 2⟩ 5 1).table.ptr[6]? = some 0 ∧
    (put_or_append ⟨fun _ => true, 9⟩
      (put_or_append ⟨fun _ => true, 9⟩ ⟨[7, 3], 2⟩ 5 1).table 1 4).table.ptr[1]?
        = some ((3 + 4) % 2 ^ 64) :=
  ⟨by decide,
    (put_or_append_frame ⟨fun _ => true, 9⟩ ⟨[7, 3], 2⟩ 5 1 (by decide)
      (fun _ => ⟨7, by decide, by decide, rfl⟩)).1,
    (put_or_append_frame ⟨fun _ => true, 9⟩ ⟨[7, 3], 2⟩ 5 1 (by decide)
      (fun _ => ⟨7, by decide, by decide, rfl⟩)).2.1 1 (by decide) (by decide),
    (put_or_append_frame ⟨fun _ => true, 9⟩ ⟨[7, 3], 2⟩ 5 1 (by decide)
      (fun _ => ⟨7, by decide, by decide, rfl⟩)).2.2.1 6 (by decide) (by decide) (by decide),
    ((put_or_append_frame ⟨fun _ => true, 9⟩ ⟨[7, 3], 2⟩ 5 1 (by decide)
      (fun _ => ⟨7, by decide, by decide, rfl⟩)).2.2.2.2 1 4 (by decide) (by decide)).2.2⟩

/-- Claim C8, as stated, fails in two places.  The slots are `uint64_t`: on the table
`[2 ^ 64 - 1]`, after index `3` has made the block grow to `4` slots, an increment of
index `0` by `2` leaves `1` there, not the old value plus `2`.  And when `realloc`
returns `NULL` for the growth that index `3` asks for on the table `[7]`, `a->ptr` is
`NULL` afterwards: the value `7` at index `0` is no longer in the table. -/
theorem put_or_append_wraps_or_loses :
    (put_or_append ⟨fun _ => true, 0⟩ ⟨[2 ^ 64 - 1], 1⟩ 3 1).table
      = ⟨[2 ^ 64 - 1, 0, 0, 1], 4⟩ ∧
    (put_or_append ⟨fun _ => true, 0⟩
      (put_or_append ⟨fun _ => true, 0⟩ ⟨[2 ^ 64 - 1], 1⟩ 3 1).table 0 2).table.ptr[0]?
        = some 1 ∧
    (1 : Nat) ≠ 2 ^ 64 - 1 + 2 ∧
    put_or_append ⟨fun _ => false, 0⟩ ⟨[7], 1⟩ 3 1
      = { table := ⟨[], 1⟩, st := status.no_block } ∧
    (put_or_append ⟨fun _ => false, 0⟩ ⟨[7], 1⟩ 3 1).table.ptr[0]? ≠ some 7 := by
  decide

/-- Claim C3, failing input: on the table of `init_array`, `put_or_append` with index `1`
grows the block to `1 * 1.5 = 1` slot, so that index `1` is not below the new size `1`, and
`a->ptr[1] += value` addresses a slot past the end of the block; the same happens for the
index `6` on the table of size `6` that index `4` produced.  (`realloc` delivers.) -/
theorem put_or_append_index_one (fresh value : Nat) :
    reachable ⟨fun _ => true, fresh⟩ init_array ∧
    put_or_append ⟨fun _ => true, fresh⟩ init_array 1 value
      = { table := ⟨[0], 1⟩, st := status.out_of_block } ∧
    ¬ (1 < (put_or_append ⟨fun _ => true, fresh⟩ init_array 1 value).table.size) ∧
    (put_or_append ⟨fun _ => true, fresh⟩ init_array 1 value).table.ptr[1]? = none ∧
    reachable ⟨fun _ => true, fresh⟩ ⟨[0, 0, 0, 0, 1, 0], 6⟩ ∧
    put_or_append ⟨fun _ => true, fresh⟩ ⟨[0, 0, 0, 0, 1, 0], 6⟩ 6 value
      = { table := ⟨[0, 0, 0, 0, 1, 0], 6⟩, st := status.out_of_block } := by
  refine ⟨reachable.init, rfl, by show ¬ (1 < 1); decide, rfl, ?_, rfl⟩
  exact reachable.put init_array 4 1 reachable.init rfl

/-! ## Page entries -/

theorem decode_entry_eq (address data : Nat) :
    decode_entry address data =
      { virtual_address := address
        frame_number := data % 2 ^ 55
        soft_dirty := data / 2 ^ 55 % 2
        exclusive_map := data / 2 ^ 56 % 2
        shared_or_file := data / 2 ^ 61 % 2
        swapped := data / 2 ^ 62 % 2
        present := data / 2 ^ 63 % 2 } := by
  have hm : (0x7fffffffffffff : Nat) = 2 ^ 55 - 1 := by norm_num
  simp only [decode_entry, hm, Nat.and_pow_two_sub_one_eq_mod, Nat.shiftRight_eq_div_pow,
    Nat.and_one_is_mod]


theorem dump_page_counts (o : options) (env : frame_tables) (m : allocator) (g : globals)
    (address data : Nat) (map_name : Option (List Nat)) :
    ((dump_page o env m g address data map_name).st = status.exited ∧
      (dump_page o env m g address data map_name).g = g) ∨
    ((dump_page o env m g address data map_name).st ≠ status.exited ∧
      (dump_page o env m g address data map_name).g.g_summary.total_pages
        = (g.g_summary.total_pages + 1) % 2 ^ 64 ∧
      (dump_page o env m g address data map_name).g.g_summary.total_active_pages
        = (g.g_summary.total_active_pages + (if data / 2 ^ 63 % 2 = 1 then 1 else 0)) % 2 ^ 64 ∧
      (dump_page o env m g address data map_name).g.g_summary.total_shared_pages
        = (g.g_summary.total_shared_pages +
          (if (dump_page o env m g address data map_name).cnt > 1 then 1 else 0)) % 2 ^ 64) := by
  have hp : (decode_entry address data).present = data / 2 ^ 63 % 2 := by
    rw [decode_entry_eq]
  have hp2 : data / 2 ^ 63 % 2 = 0 ∨ data / 2 ^ 63 % 2 = 1 := by omega
  unfold dump_page
  simp only [hp]
  split
  · left; exact ⟨rfl, rfl⟩
  · right
    split
    · refine ⟨put_or_append_not_exited _ _ _ _, rfl, ?_, rfl⟩
      rcases hp2 with h | h <;> simp [h]
    · refine ⟨by simp, rfl, ?_, rfl⟩
      rcases hp2 with h | h <;> simp [h]

theorem dump_page_keeps_summary_ok (o : options) (env : frame_tables) (m : allocator)
    (g : globals) (address data : Nat) (map_name : Option (List Nat))
    (h : summary_ok g.g_summary) (hlt : g.g_summary.total_pages < 2 ^ 64 - 1) :
    summary_ok (dump_page o env m g address data map_name).g.g_summary ∧
    (dump_page o env m g address data map_name).g.g_summary.total_pages
      ≤ g.g_summary.total_pages + 1 := by
  unfold summary_ok at h ⊢
  rcases dump_page_counts o env m g address data map_name with ⟨_, h2⟩ | ⟨_, h1, h2, h3⟩
  · rw [h2]; exact ⟨h, by omega⟩
  · rw [h1, h2, h3]
    have e : (g.g_summary.total_pages + 1) % 2 ^ 64 = g.g_summary.total_pages + 1 :=
      Nat.mod_eq_of_lt (by omega)
    rw [e]
    refine ⟨⟨?_, ?_⟩, le_rfl⟩
    · refine le_trans (Nat.mod_le _ _) ?_
      split <;> omega
    · refine le_trans (Nat.mod_le _ _) ?_
      split <;> omega

theorem dump_pages_keeps_summary_ok (o : options) (env : frame_tables) (m : allocator)
    (calls : List (Nat × Nat × Option (List Nat))) :
    ∀ g : globals, summary_ok g.g_summary →
      g.g_summary.total_pages + calls.length < 2 ^ 64 →
      summary_ok (dump_pages o env m g calls).1.g_summary := by
  induction calls with
  | nil => intro g h _; exact h
  | cons c rest ih =>
    intro g h hlen
    obtain ⟨address, data, map_name⟩ := c
    simp only [List.length_cons] at hlen
    obtain ⟨h1, h2⟩ :=
      dump_page_keeps_summary_ok o env m g address data map_name h (by omega)
    unfold dump_pages
    simp only
    split
    · exact ih _ h1 (by omega)
    · exact h1

/-- Claim C9, as the code has it: starting from the zero-initialised summary (and any
counter table), after any sequence of fewer than `2 ^ 64` `dump_page` calls (any
addresses, raw entries, names, flag settings, frame tables and allocator) the summary has
`total_active_pages ≤ total_pages` and `total_shared_pages ≤ total_pages`; and a single
call preserves the two inequalities whenever `total_pages` is below `2 ^ 64 - 1` before
it. -/
theorem summary_bounds (o : options) (env : frame_tables) (m : allocator) (a : var_array_t)
    (calls : List (Nat × Nat × Option (List Nat))) :
    (calls.length < 2 ^ 64 →
      summary_ok (dump_pages o env m
        { g_summary := { total_pages := 0, total_active_pages := 0, total_shared_pages := 0 },
          a_per_cgroup_stats := a } calls).1.g_summary) ∧
    (∀ (g : globals) (address data : Nat) (map_name : Option (List Nat)),
      summary_ok g.g_summary → g.g_summary.total_pages < 2 ^ 64 - 1 →
      summary_ok (dump_page o env m g address data map_name).g.g_summary) :=
  ⟨fun hlen => dump_pages_keeps_summary_ok o env m calls _ ⟨le_rfl, le_rfl⟩
      (by simpa using hlen),
    fun g address data map_name h hlt =>
      (dump_page_keeps_summary_ok o env m g address data map_name h hlt).1⟩

/-- An instance of `summary_bounds`: two calls from the zero summary, and a call on a
present page from the summary `(3, 2, 1)`, leave summaries within the bounds. -/
theorem summary_bounds_witness :
    summary_ok (dump_pages ⟨true, false, true, false⟩ ⟨none, none⟩ ⟨fun _ => true, 0⟩
      { g_summary := { total_pages := 0, total_active_pages := 0, total_shared_pages := 0 },
        a_per_cgroup_stats := init_array }
      [(4096, 2 ^ 63 + 42, none), (8192, 0, none)]).1.g_summary ∧
    summary_ok ({ total_pages := 3, total_active_pages := 2, total_shared_pages := 1 } : summary_t) ∧
    summary_ok (dump_page ⟨true, false, true, false⟩ ⟨none, none⟩ ⟨fun _ => true, 0⟩
      { g_summary := { total_pages := 3, total_active_pages := 2, total_shared_pages := 1 },
        a_per_cgroup_stats := init_array } 4096 (2 ^ 63 + 42) none).g.g_summary :=
  ⟨(summary_bounds ⟨true, false, true, false⟩ ⟨none, none⟩ ⟨fun _ => true, 0⟩ init_array
      [(4096, 2 ^ 63 + 42, none), (8192, 0, none)]).1 (by decide),
    by decide,
    (summary_bounds ⟨true, false, true, false⟩ ⟨none, none⟩ ⟨fun _ => true, 0⟩ init_array []).2
      { g_summary := { total_pages := 3, total_active_pages := 2, total_shared_pages := 1 },
        a_per_cgroup_stats := init_array } 4096 (2 ^ 63 + 42) none (by decide) (by decide)⟩

theorem dump_page_plain (env : frame_tables) (m : allocator) (t act : Nat)
    (a : var_array_t) :
    dump_page ⟨false, false, false, false⟩ env m ⟨⟨t, act, 0⟩, a⟩ 0 (2 ^ 63) none
      = { g := ⟨⟨(t + 1) % 2 ^ 64, (act + 1) % 2 ^ 64, 0⟩, a⟩, st := status.ok,
          printed := none, lookups := [], cnt := 0, cgroup_id := -1 } := by
  rfl

theorem dump_pages_present_run (env : frame_tables) (m : allocator) (a : var_array_t) :
    ∀ (n t act : Nat), t < 2 ^ 64 → act < 2 ^ 64 →
      dump_pages ⟨false, false, false, false⟩ env m ⟨⟨t, act, 0⟩, a⟩
          (List.replicate n (0, 2 ^ 63, none))
        = (⟨⟨(t + n) % 2 ^ 64, (act + n) % 2 ^ 64, 0⟩, a⟩, status.ok) := by
  intro n
  induction n with
  | zero =>
    intro t act ht hact
    simp only [List.replicate_zero, dump_pages, Nat.add_zero]
    rw [Nat.mod_eq_of_lt ht, Nat.mod_eq_of_lt hact]
  | succ n ih =>
    intro t act ht hact
    rw [List.replicate_succ, dump_pages]
    simp only [dump_page_plain, if_true]
    rw [ih _ _ (Nat.mod_lt _ (by norm_num)) (Nat.mod_lt _ (by norm_num))]
    have e1 : ((t + 1) % 2 ^ 64 + n) % 2 ^ 64 = (t + (n + 1)) % 2 ^ 64 := by omega
    have e2 : ((act + 1) % 2 ^ 64 + n) % 2 ^ 64 = (act + (n + 1)) % 2 ^ 64 := by omega
    rw [e1, e2]

/-- Claim C9, as stated, fails where `total_pages` wraps.  A call on a present page from
the summary `(2 ^ 64 - 1, 5, 0)`, which is within the bounds, leaves `(0, 6, 0)`; and
from the zero summary, one call on an absent page followed by `2 ^ 64 - 1` calls on a
present page leaves `total_pages = 0` and `total_active_pages = 2 ^ 64 - 1`. -/
theorem summary_bounds_wrap :
    summary_ok (⟨2 ^ 64 - 1, 5, 0⟩ : summary_t) ∧
    (dump_page ⟨false, false, false, false⟩ ⟨none, none⟩ ⟨fun _ => true, 0⟩
      ⟨⟨2 ^ 64 - 1, 5, 0⟩, init_array⟩ 0 (2 ^ 63) none).g.g_summary = ⟨0, 6, 0⟩ ∧
    ¬ summary_ok (dump_page ⟨false, false, false, false⟩ ⟨none, none⟩ ⟨fun _ => true, 0⟩
      ⟨⟨2 ^ 64 - 1, 5, 0⟩, init_array⟩ 0 (2 ^ 63) none).g.g_summary ∧
    (dump_pages ⟨false, false, false, false⟩ ⟨none, none⟩ ⟨fun _ => true, 0⟩
      ⟨⟨0, 0, 0⟩, init_array⟩
      ((0, 0, none) :: List.replicate (2 ^ 64 - 1) (0, 2 ^ 63, none))).1.g_summary
        = ⟨0, 2 ^ 64 - 1, 0⟩ ∧
    ¬ summary_ok (dump_pages ⟨false, false, false, false⟩ ⟨none, none⟩ ⟨fun _ => true, 0⟩
      ⟨⟨0, 0, 0⟩, init_array⟩
      ((0, 0, none) :: List.replicate (2 ^ 64 - 1) (0, 2 ^ 63, none))).1.g_summary := by
  have hrun : dump_pages ⟨false, false, false, false⟩ ⟨none, none⟩ ⟨fun _ => true, 0⟩
      ⟨⟨0, 0, 0⟩, init_array⟩
      ((0, 0, none) :: List.replicate (2 ^ 64 - 1) (0, 2 ^ 63, none))
      = (⟨⟨0, 2 ^ 64 - 1, 0⟩, init_array⟩, status.ok) := by
    have h1 : dump_page ⟨false, false, false, false⟩ ⟨none, none⟩ ⟨fun _ => true, 0⟩
        ⟨⟨0, 0, 0⟩, init_array⟩ 0 0 none
        = { g := ⟨⟨1, 0, 0⟩, init_array⟩, st := status.ok, printed := none, lookups := [],
            cnt := 0, cgroup_id := -1 } := by rfl
    rw [dump_pages]
    simp only [h1, if_true]
    rw [dump_pages_present_run _ _ _ _ 1 0 (by norm_num) (by norm_num)]
    norm_num
  refine ⟨by decide, by decide, by decide, ?_, ?_⟩
  · rw [hrun]
  · rw [hrun]; decide

/-- Claim C2: for every raw entry the decoding of `dump_page` gives frame_number = the low 55
bits (`data % 2 ^ 55`), soft_dirty = bit 55, exclusive_map = bit 56, shared_or_file = bit 61,
swapped = bit 62, present = bit 63; a raw value that agrees with `data` on bits 0-54, 55,
56, 61, 62 and 63 decodes to the same fields, so no other bit has any influence; a raw value with
only bit 63 set decodes to present = 1, all other flags 0 and frame_number = 0; a raw value
with bits 0-54 equal to `0x2A` and bit 63 set decodes to frame_number = 42, present = 1;
and the line `dump_page` prints carries exactly these fields. -/
theorem decode_entry_fields (address data : Nat) :
    decode_entry address data =
      { virtual_address := address
        frame_number := data % 2 ^ 55
        soft_dirty := data / 2 ^ 55 % 2
        exclusive_map := data / 2 ^ 56 % 2
        shared_or_file := data / 2 ^ 61 % 2
        swapped := data / 2 ^ 62 % 2
        present := data / 2 ^ 63 % 2 } ∧
    (∀ other : Nat, other % 2 ^ 55 = data % 2 ^ 55 →
      other / 2 ^ 55 % 2 = data / 2 ^ 55 % 2 → other / 2 ^ 56 % 2 = data / 2 ^ 56 % 2 →
      other / 2 ^ 61 % 2 = data / 2 ^ 61 % 2 → other / 2 ^ 62 % 2 = data / 2 ^ 62 % 2 →
      other / 2 ^ 63 % 2 = data / 2 ^ 63 % 2 →
      decode_entry address other = decode_entry address data) ∧
    decode_entry address (2 ^ 63) =
      { virtual_address := address, frame_number := 0, soft_dirty := 0, exclusive_map := 0,
        shared_or_file := 0, swapped := 0, present := 1 } ∧
    (data % 2 ^ 55 = 0x2A → data / 2 ^ 63 % 2 = 1 →
      (decode_entry address data).frame_number = 42 ∧ (decode_entry address data).present = 1) ∧
    (∀ (o : options) (env : frame_tables) (m : allocator) (g : globals)
        (map_name : Option (List Nat)) (line : detail_line),
      (dump_page o env m g address data map_name).printed = some line →
        line.entry = decode_entry address data) := by
  refine ⟨decode_entry_eq address data, ?_, ?_, ?_, ?_⟩
  · intro other h1 h2 h3 h4 h5 h6
    rw [decode_entry_eq, decode_entry_eq, h1, h2, h3, h4, h5, h6]
  · rw [decode_entry_eq]; norm_num
  · intro h1 h2
    rw [decode_entry_eq]
    exact ⟨h1, h2⟩
  · intro o env m g map_name line h
    unfold dump_page at h
    simp only at h
    split at h
    · simp at h
    · split at h
      · simp only at h
        split at h
        · injection h with h; rw [← h]
        · exact absurd h (by simp)
      · simp only at h
        split at h
        · injection h with h; rw [← h]
        · exact absurd h (by simp)

/-- An instance of `decode_entry_fields`: bits 58 and 60 do not reach the fields, and
`2 ^ 63 + 0x2A` has frame number 42. -/
theorem decode_entry_fields_witness :
    decode_entry 4096 (2 ^ 63 + 2 ^ 60 + 2 ^ 58 + 0x2A) = decode_entry 4096 (2 ^ 63 + 0x2A) ∧
    ((decode_entry 4096 (2 ^ 63 + 0x2A)).frame_number = 42 ∧
      (decode_entry 4096 (2 ^ 63 + 0x2A)).present = 1) ∧
    (∀ line, (dump_page ⟨true, false, false, false⟩ ⟨none, none⟩ ⟨fun _ => true, 0⟩
        ⟨⟨0, 0, 0⟩, init_array⟩ 4096 (2 ^ 63 + 0x2A) none).printed = some line →
      line.entry = decode_entry 4096 (2 ^ 63 + 0x2A)) :=
  ⟨(decode_entry_fields 4096 (2 ^ 63 + 0x2A)).2.1 (2 ^ 63 + 2 ^ 60 + 2 ^ 58 + 0x2A)
      (by decide) (by decide) (by decide) (by decide) (by decide) (by decide),
    (decode_entry_fields 4096 (2 ^ 63 + 0x2A)).2.2.2.1 (by decide) (by decide),
    fun line h => (decode_entry_fields 4096 (2 ^ 63 + 0x2A)).2.2.2.2
      ⟨true, false, false, false⟩ ⟨none, none⟩ ⟨fun _ => true, 0⟩ ⟨⟨0, 0, 0⟩, init_array⟩
      none line h⟩

/-- Claim C1, failing input: with owner tracking on, the empty owner table and a present
page whose owner id is `1`, `put_or_append` grows the block to one slot and the increment
`a->ptr[1] += 1` addresses a slot past its end: the owner table has no slot `1` afterwards
and its only slot holds `0`, while the three counters are updated as the claim says.
(`realloc` delivers.) -/
theorem dump_page_owner_one (fresh : Nat) :
    (dump_page ⟨false, true, false, false⟩ ⟨none, some (fun _ => some 1)⟩
      ⟨fun _ => true, fresh⟩ ⟨⟨0, 0, 0⟩, init_array⟩ 4096 (2 ^ 63 + 42) none)
    = { g := { g_summary := ⟨1, 1, 0⟩, a_per_cgroup_stats := ⟨[0], 1⟩ },
        st := status.out_of_block, printed := none,
        lookups := [frame_lookup.pagecgroup 42], cnt := 0, cgroup_id := 1 } ∧
    (⟨[0], 1⟩ : var_array_t).ptr[1]? = none := by
  refine ⟨?_, rfl⟩
  rfl

/-! ## Pages that are not present -/

theorem read_pagecount_value (env : frame_tables) (pfn : Nat) (calls : List frame_lookup)
    (h : pfn < 2 ^ 55) :
    read_pagecount env pfn calls
      = (match env.kpagecount with
          | none => 0
          | some file => (file (pfn * 8)).getD 0,
        calls ++ [frame_lookup.pagecount pfn]) := by
  have e : pfn * 8 % 2 ^ 64 = pfn * 8 := Nat.mod_eq_of_lt (by omega)
  unfold read_pagecount
  rw [e]
  cases env.kpagecount with
  | none => rfl
  | some file =>
    simp only
    cases file (pfn * 8) <;> rfl

theorem read_pagecgroup_value (env : frame_tables) (pfn : Nat) (calls : List frame_lookup)
    (h : pfn < 2 ^ 55) :
    read_pagecgroup env pfn calls
      = (match env.kpagecgroup with
          | none => none
          | some file => some ((file (pfn * 8)).getD 0),
        calls ++ [frame_lookup.pagecgroup pfn]) := by
  have e : pfn * 8 % 2 ^ 64 = pfn * 8 := Nat.mod_eq_of_lt (by omega)
  unfold read_pagecgroup
  rw [e]
  cases env.kpagecgroup with
  | none => rfl
  | some file =>
    simp only
    cases file (pfn * 8) <;> rfl

theorem dump_page_absent_cases (sd sc pr pn : Bool) (kc kg : Option (Nat → Option Nat))
    (m : allocator) (g : globals) (address data : Nat) (map_name : Option (List Nat))
    (P : Nat) (hf : (decode_entry address data).frame_number = P)
    (hp : (decode_entry address data).present = 0) (hP : P < 2 ^ 55)
    (hact : g.g_summary.total_active_pages < 2 ^ 64) :
    (dump_page ⟨sd, sc, pr, pn⟩ ⟨kc, kg⟩ m g address data map_name).lookups =
      (if pr = true ∧ P ≠ 0 then [frame_lookup.pagecount P] else []) ++
      (if sc = true then [frame_lookup.pagecgroup P] else []) ∧
    (dump_page ⟨sd, sc, pr, pn⟩ ⟨kc, kg⟩ m g address data map_name).cnt =
      (if pr = true ∧ P ≠ 0 then
        (match kc with
          | none => 0
          | some file => (file (P * 8)).getD 0)
       else 0) ∧
    (sc = false →
      (dump_page ⟨sd, sc, pr, pn⟩ ⟨kc, kg⟩ m g address data map_name).st = status.ok ∧
      (dump_page ⟨sd, sc, pr, pn⟩ ⟨kc, kg⟩ m g address data map_name).cgroup_id = -1) ∧
    (sc = true → kg = none →
      (dump_page ⟨sd, sc, pr, pn⟩ ⟨kc, kg⟩ m g address data map_name).st = status.exited ∧
      (dump_page ⟨sd, sc, pr, pn⟩ ⟨kc, kg⟩ m g address data map_name).g = g) ∧
    (sc = true → ∀ file, kg = some file →
      (dump_page ⟨sd, sc, pr, pn⟩ ⟨kc, kg⟩ m g address data map_name).st = status.ok ∧
      (dump_page ⟨sd, sc, pr, pn⟩ ⟨kc, kg⟩ m g address data map_name).cgroup_id
        = to_int64 ((file (P * 8)).getD 0)) ∧
    ((dump_page ⟨sd, sc, pr, pn⟩ ⟨kc, kg⟩ m g address data map_name).st = status.ok →
      (dump_page ⟨sd, sc, pr, pn⟩ ⟨kc, kg⟩ m g address data map_name).g.g_summary.total_shared_pages
        = (g.g_summary.total_shared_pages +
            (if (dump_page ⟨sd, sc, pr, pn⟩ ⟨kc, kg⟩ m g address data map_name).cnt > 1
              then 1 else 0)) % 2 ^ 64) ∧
    (dump_page ⟨sd, sc, pr, pn⟩ ⟨kc, kg⟩ m g address data map_name).g.a_per_cgroup_stats
      = g.a_per_cgroup_stats ∧
    (dump_page ⟨sd, sc, pr, pn⟩ ⟨kc, kg⟩ m g address data map_name).g.g_summary.total_active_pages
      = g.g_summary.total_active_pages := by
  have hm : g.g_summary.total_active_pages % 2 ^ 64 = g.g_summary.total_active_pages :=
    Nat.mod_eq_of_lt hact
  have hrc := fun calls => read_pagecount_value ⟨kc, kg⟩ P calls hP
  have hrg := fun calls => read_pagecgroup_value ⟨kc, kg⟩ P calls hP
  unfold dump_page
  simp only [hf, hp, hrc, hrg]
  have hact2 : g.g_summary.total_active_pages < 18446744073709551616 := by
    norm_num at hact; exact hact
  cases sc <;> cases pr <;> by_cases hz : P = 0 <;> cases kg <;> cases kc <;>
    simp [hz, hm, hact2]

theorem dump_page_printed (o : options) (env : frame_tables) (m : allocator) (g : globals)
    (address data : Nat) (map_name : Option (List Nat)) (line : detail_line)
    (h : (dump_page o env m g address data map_name).printed = some line) :
    line.refs = (dump_page o env m g address data map_name).cnt ∧
    line.cgroup =
      (if (dump_page o env m g address data map_name).cgroup_id ≠ -1
        then some (dump_page o env m g address data map_name).cgroup_id else none) := by
  unfold dump_page at h ⊢
  simp only at h ⊢
  split at h
  · simp at h
  · rename_i c heq
    have key : ∀ (r : dump_result), r.printed = some line →
        r.printed = (if o.o_show_details = true then
          some { entry := decode_entry address data, refs := r.cnt,
                 cgroup := if r.cgroup_id ≠ -1 then some r.cgroup_id else none,
                 name := map_name } else none) →
        line.refs = r.cnt ∧
          line.cgroup = (if r.cgroup_id ≠ -1 then some r.cgroup_id else none) := by
      intro r h1 h2
      rw [h2] at h1
      split at h1
      · injection h1 with h1; rw [← h1]; exact ⟨rfl, rfl⟩
      · exact absurd h1 (by simp)
    split
    · rename_i hc
      rw [if_pos hc] at h
      exact key _ h rfl
    · rename_i hc
      rw [if_neg hc] at h
      exact key _ h rfl

theorem dump_page_no_lookup (sd sc pr pn : Bool) (env env2 : frame_tables)
    (m : allocator) (g : globals) (address data : Nat) (map_name : Option (List Nat))
    (P : Nat) (hf : (decode_entry address data).frame_number = P)
    (hsc : sc = false) (hpr : pr = false ∨ P = 0) :
    dump_page ⟨sd, sc, pr, pn⟩ env2 m g address data map_name
      = dump_page ⟨sd, sc, pr, pn⟩ env m g address data map_name := by
  subst hsc
  unfold dump_page
  simp only [hf]
  rcases hpr with h | h
  · subst h; simp
  · subst h; simp

/-- Claim C5, as the code has it: for every raw entry whose present bit (bit 63) is clear,
`dump_page` calls `read_pagecount` exactly when the refs flag is set and the low 55 bits
are not zero, and `read_pagecgroup` exactly when the cgroup flag is set, both with the low
55 bits as frame number.  The share count it reports is then the content of the
share-count table at byte offset `8 *` those bits (zero when the table cannot be opened
or read) and `total_shared_pages` grows by one when that count is above 1; the owner id
it reports is the content of the owner-group table at the same offset (the process exits
when that table cannot be opened).  The owner table and `total_active_pages` are left as
they were, and when no lookup is made the whole result is the same for every content of
the two frame tables.  The line printed under the details flag carries this share count
and this owner id. -/
theorem dump_page_absent_page (o : options) (env : frame_tables) (m : allocator) (g : globals)
    (address data : Nat) (map_name : Option (List Nat)) (h : data / 2 ^ 63 % 2 = 0)
    (hact : g.g_summary.total_active_pages < 2 ^ 64) :
    (dump_page o env m g address data map_name).lookups =
      (if o.o_print_refs = true ∧ data % 2 ^ 55 ≠ 0
        then [frame_lookup.pagecount (data % 2 ^ 55)] else []) ++
      (if o.o_show_cgroup = true then [frame_lookup.pagecgroup (data % 2 ^ 55)] else []) ∧
    (dump_page o env m g address data map_name).cnt =
      (if o.o_print_refs = true ∧ data % 2 ^ 55 ≠ 0 then
        (match env.kpagecount with
          | none => 0
          | some file => (file (data % 2 ^ 55 * 8)).getD 0)
       else 0) ∧
    (o.o_show_cgroup = false →
      (dump_page o env m g address data map_name).st = status.ok ∧
      (dump_page o env m g address data map_name).cgroup_id = -1) ∧
    (o.o_show_cgroup = true → env.kpagecgroup = none →
      (dump_page o env m g address data map_name).st = status.exited ∧
      (dump_page o env m g address data map_name).g = g) ∧
    (o.o_show_cgroup = true → ∀ file, env.kpagecgroup = some file →
      (dump_page o env m g address data map_name).st = status.ok ∧
      (dump_page o env m g address data map_name).cgroup_id
        = to_int64 ((file (data % 2 ^ 55 * 8)).getD 0)) ∧
    ((dump_page o env m g address data map_name).st = status.ok →
      (dump_page o env m g address data map_name).g.g_summary.total_shared_pages
        = (g.g_summary.total_shared_pages +
            (if (dump_page o env m g address data map_name).cnt > 1 then 1 else 0))
          % 2 ^ 64) ∧
    (dump_page o env m g address data map_name).g.a_per_cgroup_stats
      = g.a_per_cgroup_stats ∧
    (dump_page o env m g address data map_name).g.g_summary.total_active_pages
      = g.g_summary.total_active_pages ∧
    ((dump_page o env m g address data map_name).lookups = [] →
      ∀ env2 : frame_tables, dump_page o env2 m g address data map_name
        = dump_page o env m g address data map_name) ∧
    (∀ line : detail_line, (dump_page o env m g address data map_name).printed = some line →
      line.refs = (dump_page o env m g address data map_name).cnt ∧
      line.cgroup =
        (if (dump_page o env m g address data map_name).cgroup_id ≠ -1
          then some (dump_page o env m g address data map_name).cgroup_id else none)) := by
  have hp : (decode_entry address data).present = 0 := by
    rw [decode_entry_eq]; exact h
  have hf : (decode_entry address data).frame_number = data % 2 ^ 55 := by
    rw [decode_entry_eq]
  have hP : data % 2 ^ 55 < 2 ^ 55 := Nat.mod_lt _ (by norm_num)
  generalize data % 2 ^ 55 = P at hf hP ⊢
  obtain ⟨sd, sc, pr, pn⟩ := o
  obtain ⟨kc, kg⟩ := env
  obtain ⟨c1, c2, c3, c4, c5, c6, c7, c8⟩ :=
    dump_page_absent_cases sd sc pr pn kc kg m g address data map_name P hf hp hP hact
  refine ⟨c1, c2, c3, c4, c5, c6, c7, c8, ?_,
    fun line hl => dump_page_printed _ _ m g address data map_name line hl⟩
  intro hl env2
  rw [c1] at hl
  have hsc : sc = false := by
    cases sc
    · rfl
    · simp at hl
  have hpr : pr = false ∨ P = 0 := by
    cases pr
    · exact Or.inl rfl
    · right
      by_contra hz
      simp [hz] at hl
  exact dump_page_no_lookup sd sc pr pn ⟨kc, kg⟩ env2 m g address data map_name P hf hsc hpr

/-- Two instances of `dump_page_absent_page`.  For the swapped entry `2 ^ 62 + 97` with
the refs and cgroup flags set, both tables are read at byte offset `8 * 97 = 776`: the
share count is the `2` and the owner id the `9` that stand there.  For the absent entry
`2 ^ 62` with only the refs flag set no lookup is made and the result is the same for
another table. -/
theorem dump_page_absent_page_witness :
    (2 ^ 62 + 97) / 2 ^ 63 % 2 = 0 ∧
    (dump_page ⟨false, true, true, false⟩
      ⟨some (fun off => if off = 776 then some 2 else some 0),
        some (fun off => if off = 776 then some 9 else some 0)⟩
      ⟨fun _ => true, 0⟩ ⟨⟨0, 0, 0⟩, init_array⟩ 4096 (2 ^ 62 + 97) none).lookups
        = [frame_lookup.pagecount 97, frame_lookup.pagecgroup 97] ∧
    (dump_page ⟨false, true, true, false⟩
      ⟨some (fun off => if off = 776 then some 2 else some 0),
        some (fun off => if off = 776 then some 9 else some 0)⟩
      ⟨fun _ => true, 0⟩ ⟨⟨0, 0, 0⟩, init_array⟩ 4096 (2 ^ 62 + 97) none).cnt = 2 ∧
    (dump_page ⟨false, true, true, false⟩
      ⟨some (fun off => if off = 776 then some 2 else some 0),
        some (fun off => if off = 776 then some 9 else some 0)⟩
      ⟨fun _ => true, 0⟩ ⟨⟨0, 0, 0⟩, init_array⟩ 4096 (2 ^ 62 + 97) none).cgroup_id = 9 ∧
    (2 ^ 62) / 2 ^ 63 % 2 = 0 ∧
    dump_page ⟨false, false, true, false⟩ ⟨some (fun _ => some 7), none⟩ ⟨fun _ => true, 0⟩
        ⟨⟨0, 0, 0⟩, init_array⟩ 4096 (2 ^ 62) none
      = dump_page ⟨false, false, true, false⟩ ⟨some (fun _ => some 2), none⟩ ⟨fun _ => true, 0⟩
        ⟨⟨0, 0, 0⟩, init_array⟩ 4096 (2 ^ 62) none :=
  ⟨by decide,
    (dump_page_absent_page ⟨false, true, true, false⟩
      ⟨some (fun off => if off = 776 then some 2 else some 0),
        some (fun off => if off = 776 then some 9 else some 0)⟩
      ⟨fun _ => true, 0⟩ ⟨⟨0, 0, 0⟩, init_array⟩ 4096 (2 ^ 62 + 97) none
      (by decide) (by decide)).1,
    (dump_page_absent_page ⟨false, true, true, false⟩
      ⟨some (fun off => if off = 776 then some 2 else some 0),
        some (fun off => if off = 776 then some 9 else some 0)⟩
      ⟨fun _ => true, 0⟩ ⟨⟨0, 0, 0⟩, init_array⟩ 4096 (2 ^ 62 + 97) none
      (by decide) (by decide)).2.1,
    ((dump_page_absent_page ⟨false, true, true, false⟩
      ⟨some (fun off => if off = 776 then some 2 else some 0),
        some (fun off => if off = 776 then some 9 else some 0)⟩
      ⟨fun _ => true, 0⟩ ⟨⟨0, 0, 0⟩, init_array⟩ 4096 (2 ^ 62 + 97) none
      (by decide) (by decide)).2.2.2.2.1 rfl _ rfl).2,
    by decide,
    (dump_page_absent_page ⟨false, false, true, false⟩ ⟨some (fun _ => some 2), none⟩
      ⟨fun _ => true, 0⟩ ⟨⟨0, 0, 0⟩, init_array⟩ 4096 (2 ^ 62) none (by decide)
      (by decide)).2.2.2.2.2.2.2.2.1 (by decide) ⟨some (fun _ => some 7), none⟩⟩

/-- Claim C5, as stated, fails: the raw entry `2 ^ 62 + 97` (swapped, present bit clear,
low 55 bits `97`) with the refs flag set makes `dump_page` call `read_pagecount` with
frame number `97`, and `total_shared_pages` and the reported share count follow the
content of the share-count table at that frame; with the cgroup flag set it calls
`read_pagecgroup` with frame number `97` and reports the owner id found there. -/
theorem absent_page_is_looked_up :
    (2 ^ 62 + 97) / 2 ^ 63 % 2 = 0 ∧
    (dump_page ⟨false, false, true, false⟩
      ⟨some (fun off => if off = 776 then some 2 else some 0), none⟩ ⟨fun _ => true, 0⟩
      ⟨⟨0, 0, 0⟩, init_array⟩ 4096 (2 ^ 62 + 97) none).lookups = [frame_lookup.pagecount 97] ∧
    (dump_page ⟨false, false, true, false⟩
      ⟨some (fun off => if off = 776 then some 2 else some 0), none⟩ ⟨fun _ => true, 0⟩
      ⟨⟨0, 0, 0⟩, init_array⟩ 4096 (2 ^ 62 + 97) none).g.g_summary.total_shared_pages = 1 ∧
    (dump_page ⟨false, false, true, false⟩ ⟨some (fun _ => some 0), none⟩ ⟨fun _ => true, 0⟩
      ⟨⟨0, 0, 0⟩, init_array⟩ 4096 (2 ^ 62 + 97) none).g.g_summary.total_shared_pages = 0 ∧
    (dump_page ⟨false, false, true, false⟩
      ⟨some (fun off => if off = 776 then some 2 else some 0), none⟩ ⟨fun _ => true, 0⟩
      ⟨⟨0, 0, 0⟩, init_array⟩ 4096 (2 ^ 62 + 97) none).cnt = 2 ∧
    (dump_page ⟨false, true, false, false⟩
      ⟨none, some (fun off => if off = 776 then some 9 else some 0)⟩ ⟨fun _ => true, 0⟩
      ⟨⟨0, 0, 0⟩, init_array⟩ 4096 (2 ^ 62 + 97) none).lookups = [frame_lookup.pagecgroup 97] ∧
    (dump_page ⟨false, true, false, false⟩
      ⟨none, some (fun off => if off = 776 then some 9 else some 0)⟩ ⟨fun _ => true, 0⟩
      ⟨⟨0, 0, 0⟩, init_array⟩ 4096 (2 ^ 62 + 97) none).cgroup_id = 9 := by
  decide

/-! ## Ranges, owner lookup, split lines -/

/-- Claim C7, failing input: for the range `0x400000-0x401000` with every read succeeding,
`read_vma` makes one `dump_page` call, and the address it passes is the byte offset
`(0x400000 / 4096) * 8 = 0x2000` into the pagemap file, not the page address `0x400000`. -/
theorem read_vma_passes_offset (val : Nat) (map_name : Option (List Nat)) :
    read_vma_calls (fun _ => some val) 0x400000 0x401000 map_name
      = [(0x2000, val, map_name)] ∧
    (read_vma_calls (fun _ => some val) 0x400000 0x401000 map_name).map (fun c => c.1)
      ≠ [0x400000] := by
  have h : read_vma_calls (fun _ => some val) 0x400000 0x401000 map_name
      = [(0x2000, val, map_name)] := by rfl
  refine ⟨h, ?_⟩
  rw [h]; simp

/-- Claim C10, failing input: below `/sys/fs/cgroup/` the directory `a` (inode 5) holds the
directory `x` (inode 7) and is followed by the directory `b` (inode 7).  The first
directory with inode 7 in depth-first order is `/sys/fs/cgroup/a/x`; `parse_cgroup_mnt`
finds it, returns `1` to the walk of the root, which goes on with `b` and overwrites the
result, so that `get_groupid_name` returns `/sys/fs/cgroup/b`. -/
theorem get_groupid_name_last_wins :
    get_groupid_name (bytes "/sys/fs/cgroup/")
      (dirent.mk [] d_type.DT_DIR none true
        [dirent.mk (bytes "a") d_type.DT_DIR (some (true, 5)) true
          [dirent.mk (bytes "x") d_type.DT_DIR (some (true, 7)) true []],
         dirent.mk (bytes "b") d_type.DT_DIR (some (true, 7)) true []]) 7
      = (bytes "/sys/fs/cgroup/b", status.ok) ∧
    first_match (bytes "/sys/fs/cgroup/")
      (dirent.mk [] d_type.DT_DIR none true
        [dirent.mk (bytes "a") d_type.DT_DIR (some (true, 5)) true
          [dirent.mk (bytes "x") d_type.DT_DIR (some (true, 7)) true []],
         dirent.mk (bytes "b") d_type.DT_DIR (some (true, 7)) true []]) 7
      = bytes "/sys/fs/cgroup/a/x" := by
  decide

/-- Claim C4, failing input: the listing `400000-401000 r-xp 00000000 00:00 0  /bin/true`
with its newline, read at once, gives the range `0x400000-0x401000`; read as the two
chunks `4000` and the rest, it gives the range `0-0x401000`, because the second `read`
overwrites the start of the buffer (`offset` stays `0`) and the line is parsed from the
first byte of the second chunk. -/
theorem parse_maps_split_line :
    parse_maps_calls ⟨false, false, false, true⟩ 8192 true (List.replicate 8192 0)
        [bytes "400000-401000 r-xp 00000000 00:00 0  /bin/true\n"]
      = ([{ low := 0x400000, high := 0x401000, lib_name := some (bytes "/bin/true") }],
          status.ok) ∧
    parse_maps_calls ⟨false, false, false, true⟩ 8192 true (List.replicate 8192 0)
        [bytes "4000", bytes "00-401000 r-xp 00000000 00:00 0  /bin/true\n"]
      = ([{ low := 0, high := 0x401000, lib_name := some (bytes "/bin/true") }],
          status.ok) := by
  decide

/-! ## Region listing -/

theorem getD_at_length (pre tail : List Nat) (c d : Nat) :
    (pre ++ c :: tail).getD pre.length d = c := by
  rw [List.getD_eq_getElem?_getD, List.getElem?_append_right (le_refl _)]
  simp

theorem getD_in_front (body tail : List Nat) (j d : Nat) (h : j < body.length) :
    (body ++ tail).getD j d ∈ body := by
  rw [List.getD_eq_getElem?_getD, List.getElem?_append_left h, List.getElem?_eq_getElem h]
  simp

theorem skip_until_run (B c : Nat) (mid : List Nat) :
    ∀ (pre tail : List Nat) (fuel : Nat), (∀ b ∈ mid, b ≠ c) →
      pre.length + mid.length < B → mid.length ≤ fuel →
      skip_loop B c false (pre ++ mid ++ c :: tail) fuel pre.length
        = pre.length + mid.length := by
  induction mid with
  | nil =>
    intro pre tail fuel _ _ _
    cases fuel with
    | zero => rfl
    | succ f =>
      have e2 : (pre ++ [] ++ c :: tail).getD pre.length 0 = c := by
        rw [List.append_nil, getD_at_length]
      unfold skip_loop
      rw [if_neg (by simp only [e2]; simp)]
      rfl
  | cons m mid ih =>
    intro pre tail fuel hm hB hf
    cases fuel with
    | zero => simp at hf
    | succ f =>
      have hmc : m ≠ c := hm m (by simp)
      have e : pre ++ m :: mid ++ c :: tail = (pre ++ [m]) ++ mid ++ c :: tail := by simp
      have e2 : (pre ++ m :: mid ++ c :: tail).getD pre.length 0 = m := by
        have : pre ++ m :: mid ++ c :: tail = pre ++ m :: (mid ++ c :: tail) := by simp
        rw [this, getD_at_length]
      unfold skip_loop
      simp only [e2]
      simp at hB hf
      rw [if_pos ⟨by simpa using hmc, by omega⟩, e]
      have := ih (pre ++ [m]) tail f (fun b hb => hm b (by simp [hb])) (by simp; omega) (by omega)
      simp at this
      simp
      rw [this]; omega

theorem skip_while_run (B c d : Nat) (hd : d ≠ c) (m : Nat) :
    ∀ (pre tail : List Nat) (fuel : Nat),
      pre.length + m < B → m ≤ fuel →
      skip_loop B c true (pre ++ List.replicate m c ++ d :: tail) fuel pre.length
        = pre.length + m := by
  induction m with
  | zero =>
    intro pre tail fuel _ _
    cases fuel with
    | zero => rfl
    | succ f =>
      have e2 : (pre ++ List.replicate 0 c ++ d :: tail).getD pre.length 0 = d := by
        rw [List.replicate_zero, List.append_nil, getD_at_length]
      unfold skip_loop
      rw [if_neg (by simp only [e2]; simp [hd])]
      rfl
  | succ m ih =>
    intro pre tail fuel hB hf
    cases fuel with
    | zero => simp at hf
    | succ f =>
      have e : pre ++ List.replicate (m + 1) c ++ d :: tail
          = (pre ++ [c]) ++ List.replicate m c ++ d :: tail := by
        simp [List.replicate_succ]
      have e2 : (pre ++ List.replicate (m + 1) c ++ d :: tail).getD pre.length 0 = c := by
        have : pre ++ List.replicate (m + 1) c ++ d :: tail
            = pre ++ c :: (List.replicate m c ++ d :: tail) := by simp [List.replicate_succ]
        rw [this, getD_at_length]
      unfold skip_loop
      simp only [e2]
      rw [if_pos ⟨by simp, by omega⟩, e]
      have := ih (pre ++ [c]) tail f (by simp; omega) (by omega)
      simp at this
      simp
      rw [this]; omega

theorem hex_loop_run (B stop : Nat) (hstop : ¬ is_hex_digit stop) (hs : List Nat) :
    ∀ (pre tail : List Nat) (fuel acc j : Nat), (∀ c ∈ hs, is_hex_digit c) →
      pre.length + hs.length < B → hs.length ≤ fuel → acc < 16 ^ j → j + hs.length ≤ 16 →
      hex_loop B stop (pre ++ hs ++ stop :: tail) fuel pre.length acc
        = (pre.length + hs.length,
            hs.foldl (fun a c => a * 16 + (if c ≤ 57 then c - 48 else c - 97 + 10)) acc) := by
  induction hs with
  | nil =>
    intro pre tail fuel acc j _ _ _ _ _
    have e2 : (pre ++ [] ++ stop :: tail).getD pre.length 0 = stop := by
      rw [List.append_nil, getD_at_length]
    cases fuel with
    | zero => rfl
    | succ f =>
      unfold hex_loop
      rw [if_neg (by simp only [e2]; simp)]
      rfl
  | cons c hs ih =>
    intro pre tail fuel acc j hh hB hf hacc hj
    cases fuel with
    | zero => simp at hf
    | succ f =>
      have hc : is_hex_digit c := hh c (by simp)
      have hcs : c ≠ stop := by
        intro h; rw [h] at hc; exact hstop hc
      have e : pre ++ c :: hs ++ stop :: tail = (pre ++ [c]) ++ hs ++ stop :: tail := by simp
      have e2 : (pre ++ c :: hs ++ stop :: tail).getD pre.length 0 = c := by
        have : pre ++ c :: hs ++ stop :: tail = pre ++ c :: (hs ++ stop :: tail) := by simp
        rw [this, getD_at_length]
      simp only [List.length_cons] at hB hf hj
      have hP1 : 16 ^ (j + 1) = 16 ^ j * 16 := pow_succ 16 j
      have hP2 : 16 ^ (j + 1) ≤ 2 ^ 64 := by
        have : (16 : Nat) ^ (j + 1) ≤ 16 ^ 16 := Nat.pow_le_pow_right (by norm_num) (by omega)
        have h16 : (16 : Nat) ^ 16 = 2 ^ 64 := by norm_num
        omega
      have h64 : (2 : Nat) ^ 64 = 18446744073709551616 := by norm_num
      have ih' := fun a (ha : a < 16 ^ (j + 1)) =>
        ih (pre ++ [c]) tail f a (j + 1) (fun b hb => hh b (by simp [hb]))
          (by simp; omega) (by omega) ha (by omega)
      simp only [List.length_append, List.length_singleton] at ih'
      have hlen : pre.length + 1 + hs.length = pre.length + (hs.length + 1) := by omega
      unfold hex_loop
      simp only [e2, List.foldl_cons, List.length_cons]
      rw [if_pos ⟨hcs, by omega⟩]
      have hm1 : acc * 16 % 2 ^ 64 = acc * 16 := Nat.mod_eq_of_lt (by omega)
      rw [hm1]
      unfold is_hex_digit at hc
      rcases hc with hc | hc
      · rw [if_pos hc, if_pos hc.2]
        have hm2 : (acc * 16 + (c - 48)) % 2 ^ 64 = acc * 16 + (c - 48) :=
          Nat.mod_eq_of_lt (by omega)
        rw [hm2, e, ih' _ (by omega), hlen]
      · rw [if_neg (by omega), if_pos hc, if_neg (by omega)]
        have hm2 : (acc * 16 + (c - 97 + 10)) % 2 ^ 64 = acc * 16 + (c - 97 + 10) :=
          Nat.mod_eq_of_lt (by omega)
        rw [hm2, e, ih' _ (by omega), hlen]

theorem scan_buffer_pass (o : options) (B n i : Nat) (buf : List Nat)
    (h : buf.getD i 0 ≠ 10) :
    scan_buffer o B (n + 1) i buf = scan_buffer o B n (i + 1) buf := by
  rw [scan_buffer, if_neg (fun hc => h hc.1)]

theorem scan_buffer_skip (o : options) (B : Nat) (buf : List Nat) (r : Nat) :
    ∀ (m i : Nat), (∀ j, i ≤ j → j < i + m → buf.getD j 0 ≠ 10) →
      scan_buffer o B (m + r) i buf = scan_buffer o B r (i + m) buf := by
  intro m
  induction m with
  | zero => intro i _; simp
  | succ m ih =>
    intro i h
    have e : m + 1 + r = (m + r) + 1 := by omega
    have e3 : i + 1 + m = i + (m + 1) := by omega
    rw [e, scan_buffer_pass o B (m + r) i buf (h i le_rfl (by omega)),
      ih (i + 1) (fun j h1 h2 => h j (by omega) (by omega)), e3]

theorem set_at_length (pre tail : List Nat) (c d : Nat) :
    (pre ++ c :: tail).set pre.length d = pre ++ d :: tail := by
  induction pre with
  | nil => rfl
  | cons a pre ih => simp [ih]

theorem c_string_run (front path rest : List Nat) (hp : ∀ b ∈ path, b ≠ 0) :
    c_string (front ++ path ++ 0 :: rest) front.length = path := by
  unfold c_string
  rw [List.append_assoc, List.drop_left]
  induction path with
  | nil => simp [List.takeWhile]
  | cons a path ih =>
    have ha : a ≠ 0 := hp a (by simp)
    simp only [List.cons_append, List.takeWhile_cons]
    simp only [ha, ne_eq, not_false_eq_true, decide_True, if_true]
    rw [ih (fun b hb => hp b (by simp [hb]))]

theorem skip_until_at (B c : Nat) (buf pre mid tail : List Nat) (x fuel : Nat)
    (hb : buf = pre ++ mid ++ c :: tail) (hx : x = pre.length) (hm : ∀ b ∈ mid, b ≠ c)
    (hB : x + mid.length < B) (hf : mid.length ≤ fuel) :
    skip_loop B c false buf fuel x = x + mid.length := by
  subst hb hx
  exact skip_until_run B c mid pre tail fuel hm hB hf

theorem skip_while_at (B c d : Nat) (buf pre tail : List Nat) (m x fuel : Nat)
    (hb : buf = pre ++ List.replicate m c ++ d :: tail) (hx : x = pre.length) (hd : d ≠ c)
    (hB : x + m < B) (hf : m ≤ fuel) :
    skip_loop B c true buf fuel x = x + m := by
  subst hb hx
  exact skip_while_run B c d hd m pre tail fuel hB hf

theorem hex_loop_at (B stop : Nat) (buf pre hs tail : List Nat) (x fuel : Nat)
    (hb : buf = pre ++ hs ++ stop :: tail) (hx : x = pre.length)
    (hstop : ¬ is_hex_digit stop) (hh : ∀ c ∈ hs, is_hex_digit c)
    (hB : x + hs.length < B) (hf : hs.length ≤ fuel) (hl : hs.length ≤ 16) :
    hex_loop B stop buf fuel x 0 = (x + hs.length, hex_value hs) := by
  subst hb hx
  exact hex_loop_run B stop hstop hs pre tail fuel 0 0 hh hB hf (by norm_num) (by omega)

theorem hex_digit_ne (c : Nat) (h : is_hex_digit c) : c ≠ 10 ∧ c ≠ 32 ∧ c ≠ 45 := by
  unfold is_hex_digit at h; omega

theorem listing_line_length (hs he f1 f2 f3 f4 : List Nat) (k : Nat) (path : List Nat) :
    (listing_line hs he f1 f2 f3 f4 k path).length
      = hs.length + 1 + he.length + 1 + f1.length + 1 + f2.length + 1 + f3.length + 1 +
        f4.length + (k + 1) + path.length + 1 := by
  simp [listing_line]; omega

theorem listing_line_no_newline (hs he f1 f2 f3 f4 : List Nat) (k : Nat) (path rest : List Nat)
    (hhs : ∀ c ∈ hs, is_hex_digit c) (hhe : ∀ c ∈ he, is_hex_digit c)
    (h1 : ∀ b ∈ f1, b ≠ 32 ∧ b ≠ 10) (h2 : ∀ b ∈ f2, b ≠ 32 ∧ b ≠ 10)
    (h3 : ∀ b ∈ f3, b ≠ 32 ∧ b ≠ 10) (h4 : ∀ b ∈ f4, b ≠ 32 ∧ b ≠ 10)
    (hp : ∀ b ∈ path, b ≠ 32 ∧ b ≠ 10 ∧ b ≠ 0) (j : Nat)
    (hj : j + 1 < (listing_line hs he f1 f2 f3 f4 k path).length) :
    (listing_line hs he f1 f2 f3 f4 k path ++ rest).getD j 0 ≠ 10 := by
  have e : listing_line hs he f1 f2 f3 f4 k path ++ rest
      = (hs ++ [45] ++ he ++ [32] ++ f1 ++ [32] ++ f2 ++ [32] ++ f3 ++ [32] ++ f4 ++
          List.replicate (k + 1) 32 ++ path) ++ (10 :: rest) := by
    simp [listing_line]
  rw [e]
  rw [listing_line_length] at hj
  have hm := getD_in_front (hs ++ [45] ++ he ++ [32] ++ f1 ++ [32] ++ f2 ++ [32] ++ f3 ++ [32]
    ++ f4 ++ List.replicate (k + 1) 32 ++ path) (10 :: rest) j 0 (by simp; omega)
  generalize ((hs ++ [45] ++ he ++ [32] ++ f1 ++ [32] ++ f2 ++ [32] ++ f3 ++ [32] ++ f4 ++
          List.replicate (k + 1) 32 ++ path) ++ (10 :: rest)).getD j 0 = b at hm
  simp only [List.mem_append, List.mem_singleton, List.mem_replicate] at hm
  rcases hm with ((((((((((((h | h) | h) | h) | h) | h) | h) | h) | h) | h) | h) | h) | h)
  · exact (hex_digit_ne b (hhs b h)).1
  · omega
  · exact (hex_digit_ne b (hhe b h)).1
  · omega
  · exact (h1 b h).2
  · omega
  · exact (h2 b h).2
  · omega
  · exact (h3 b h).2
  · omega
  · exact (h4 b h).2
  · omega
  · exact (hp b h).2.1


theorem getD_shift (pre l : List Nat) (j d : Nat) :
    (pre ++ l).getD (pre.length + j) d = l.getD j d := by
  rw [List.getD_eq_getElem?_getD, List.getD_eq_getElem?_getD,
    List.getElem?_append_right (by omega)]
  simp

theorem getD_last_of_front (front tail : List Nat) :
    (front ++ [10] ++ tail).getD ((front ++ [10]).length - 1) 0 = 10 := by
  have e : (front ++ [10] ++ tail) = front ++ 10 :: tail := by simp
  have e2 : (front ++ [10]).length - 1 = front.length := by simp
  rw [e2, e, getD_at_length]

theorem line_start_back (buf : List Nat) (p : Nat) :
    ∀ mlen : Nat, (p = 0 ∨ buf.getD (p - 1) 0 = 10) →
      (∀ j, p ≤ j → j ≤ p + mlen → buf.getD j 0 ≠ 10) → line_start buf (p + mlen) = p := by
  intro mlen
  induction mlen with
  | zero =>
    intro hprev hno
    have hp := hno p le_rfl (by omega)
    cases p with
    | zero => rw [Nat.add_zero, line_start, if_neg hp]
    | succ q =>
      rw [Nat.add_zero, line_start, if_pos hp]
      have hq : buf.getD q 0 = 10 := by
        rcases hprev with h | h
        · omega
        · simpa using h
      cases q with
      | zero => rw [line_start, if_pos hq]
      | succ r => rw [line_start, if_neg (by simpa using hq)]
  | succ mlen ih =>
    intro hprev hno
    have e : p + (mlen + 1) = (p + mlen) + 1 := by omega
    rw [e, line_start, if_pos (hno (p + mlen + 1) (by omega) (by omega))]
    exact ih hprev (fun j h1 h2 => hno j h1 (by omega))

theorem parse_line_listing (o : options) (B : Nat) (hs he f1 f2 f3 f4 : List Nat) (k : Nat)
    (d : Nat) (path pre rest : List Nat) (hpre : pre = [] ∨ ∃ front, pre = front ++ [10])
    (ho : o.o_print_map_name = true)
    (hhs : ∀ c ∈ hs, is_hex_digit c) (hhe : ∀ c ∈ he, is_hex_digit c)
    (hls : hs.length ≤ 16) (hle : he.length ≤ 16)
    (h1 : ∀ b ∈ f1, b ≠ 32 ∧ b ≠ 10) (h2 : ∀ b ∈ f2, b ≠ 32 ∧ b ≠ 10)
    (h3 : ∀ b ∈ f3, b ≠ 32 ∧ b ≠ 10) (h4 : ∀ b ∈ f4, b ≠ 32 ∧ b ≠ 10)
    (hp : ∀ b ∈ d :: path, b ≠ 32 ∧ b ≠ 10 ∧ b ≠ 0)
    (hB : pre.length + (listing_line hs he f1 f2 f3 f4 k (d :: path)).length ≤ B) :
    parse_line o B (pre ++ listing_line hs he f1 f2 f3 f4 k (d :: path) ++ rest)
        (pre.length + (listing_line hs he f1 f2 f3 f4 k (d :: path)).length - 1)
      = ({ low := hex_value hs, high := hex_value he, lib_name := some (d :: path) },
          pre ++ listing_line hs he f1 f2 f3 f4 k (d :: path) ++ rest, status.ok) := by
  have hn := listing_line_length hs he f1 f2 f3 f4 k (d :: path)
  simp only [List.length_cons] at hn
  generalize hbuf : pre ++ listing_line hs he f1 f2 f3 f4 k (d :: path) ++ rest = buf
  have hnl : ∀ j, j + 1 < (listing_line hs he f1 f2 f3 f4 k (d :: path)).length →
      buf.getD (pre.length + j) 0 ≠ 10 := fun j hj => by
    rw [← hbuf, List.append_assoc, getD_shift]
    exact listing_line_no_newline hs he f1 f2 f3 f4 k (d :: path) rest hhs hhe h1 h2 h3 h4 hp j hj
  have hprev : pre.length = 0 ∨ buf.getD (pre.length - 1) 0 = 10 := by
    rcases hpre with h0 | h0
    · left; rw [h0]; rfl
    · right
      obtain ⟨front, h0⟩ := h0
      rw [← hbuf, List.append_assoc, h0]
      exact getD_last_of_front front _
  generalize hN : (listing_line hs he f1 f2 f3 f4 k (d :: path)).length = n at *
  -- the start of the line
  have S0 : line_start buf (pre.length + n - 1 - 1) = pre.length := by
    have e : pre.length + n - 1 - 1 = pre.length + (n - 2) := by omega
    rw [e]
    exact line_start_back buf pre.length (n - 2) hprev
      (fun j h1 h2 => by
        have := hnl (j - pre.length) (by omega)
        rwa [Nat.add_sub_cancel' h1] at this)
  -- the first number
  have S1 : hex_loop B 45 buf B pre.length 0 = (pre.length + hs.length, hex_value hs) :=
    hex_loop_at B 45 buf pre hs
      (he ++ 32 :: (f1 ++ 32 :: (f2 ++ 32 :: (f3 ++ 32 :: (f4 ++
        (List.replicate (k + 1) 32 ++ d :: (path ++ 10 :: rest)))))))
      pre.length B (by rw [← hbuf]; simp [listing_line]) rfl (by decide) hhs (by omega)
      (by omega) hls
  have S2 : skip_loop B 45 false buf B (pre.length + hs.length)
      = pre.length + hs.length + 0 :=
    skip_until_at B 45 buf (pre ++ hs) []
      (he ++ 32 :: (f1 ++ 32 :: (f2 ++ 32 :: (f3 ++ 32 :: (f4 ++
        (List.replicate (k + 1) 32 ++ d :: (path ++ 10 :: rest)))))))
      (pre.length + hs.length) B (by rw [← hbuf]; simp [listing_line]) (by simp) (by simp)
      (by simp; omega) (by simp)
  have S3 : buf.getD (pre.length + hs.length) 0 = 45 := by
    have e : buf = (pre ++ hs) ++ 45 :: (he ++ 32 :: (f1 ++ 32 :: (f2 ++ 32 :: (f3 ++ 32 :: (f4 ++
        (List.replicate (k + 1) 32 ++ d :: (path ++ 10 :: rest))))))) := by
      rw [← hbuf]; simp [listing_line]
    have e2 : pre.length + hs.length = (pre ++ hs).length := by simp
    rw [e2, e, getD_at_length]
  have S4 : hex_loop B 32 buf B (pre.length + hs.length + 1) 0
      = (pre.length + hs.length + 1 + he.length, hex_value he) :=
    hex_loop_at B 32 buf (pre ++ hs ++ [45]) he
      (f1 ++ 32 :: (f2 ++ 32 :: (f3 ++ 32 :: (f4 ++
        (List.replicate (k + 1) 32 ++ d :: (path ++ 10 :: rest))))))
      (pre.length + hs.length + 1) B (by rw [← hbuf]; simp [listing_line]) (by simp; omega) (by decide) hhe
      (by omega) (by omega) hle
  have S5 : skip_loop B 32 false buf B (pre.length + hs.length + 1 + he.length + 1)
      = pre.length + hs.length + 1 + he.length + 1 + f1.length :=
    skip_until_at B 32 buf (pre ++ hs ++ [45] ++ he ++ [32]) f1
      (f2 ++ 32 :: (f3 ++ 32 :: (f4 ++
        (List.replicate (k + 1) 32 ++ d :: (path ++ 10 :: rest)))))
      _ B (by rw [← hbuf]; simp [listing_line]) (by simp; omega) (fun b hb => (h1 b hb).1)
      (by omega) (by omega)
  have S6 : skip_loop B 32 false buf B (pre.length + hs.length + 1 + he.length + 1 + f1.length + 1)
      = pre.length + hs.length + 1 + he.length + 1 + f1.length + 1 + f2.length :=
    skip_until_at B 32 buf (pre ++ hs ++ [45] ++ he ++ [32] ++ f1 ++ [32]) f2
      (f3 ++ 32 :: (f4 ++ (List.replicate (k + 1) 32 ++ d :: (path ++ 10 :: rest))))
      _ B (by rw [← hbuf]; simp [listing_line]) (by simp; omega) (fun b hb => (h2 b hb).1)
      (by omega) (by omega)
  have S7 : skip_loop B 32 false buf B
        (pre.length + hs.length + 1 + he.length + 1 + f1.length + 1 + f2.length + 1)
      = pre.length + hs.length + 1 + he.length + 1 + f1.length + 1 + f2.length + 1 + f3.length :=
    skip_until_at B 32 buf (pre ++ hs ++ [45] ++ he ++ [32] ++ f1 ++ [32] ++ f2 ++ [32]) f3
      (f4 ++ (List.replicate (k + 1) 32 ++ d :: (path ++ 10 :: rest)))
      _ B (by rw [← hbuf]; simp [listing_line]) (by simp; omega) (fun b hb => (h3 b hb).1)
      (by omega) (by omega)
  have S8 : skip_loop B 32 false buf B
        (pre.length + hs.length + 1 + he.length + 1 + f1.length + 1 + f2.length + 1 + f3.length + 1)
      = pre.length + hs.length + 1 + he.length + 1 + f1.length + 1 + f2.length + 1 + f3.length + 1
          + f4.length :=
    skip_until_at B 32 buf (pre ++ hs ++ [45] ++ he ++ [32] ++ f1 ++ [32] ++ f2 ++ [32] ++ f3 ++ [32])
      f4 (List.replicate k 32 ++ d :: (path ++ 10 :: rest))
      _ B (by rw [← hbuf]; simp [listing_line, List.replicate_succ]) (by simp; omega)
      (fun b hb => (h4 b hb).1) (by omega) (by omega)
  have S9 : skip_loop B 32 true buf B
        (pre.length + hs.length + 1 + he.length + 1 + f1.length + 1 + f2.length + 1 + f3.length + 1
          + f4.length)
      = pre.length + hs.length + 1 + he.length + 1 + f1.length + 1 + f2.length + 1 + f3.length + 1
          + f4.length + (k + 1) :=
    skip_while_at B 32 d buf
      (pre ++ hs ++ [45] ++ he ++ [32] ++ f1 ++ [32] ++ f2 ++ [32] ++ f3 ++ [32] ++ f4)
      (path ++ 10 :: rest) (k + 1)
      _ B (by rw [← hbuf]; simp [listing_line]) (by simp; omega) (hp d (by simp)).1
      (by omega) (by omega)
  have S10 : skip_loop B 10 false buf B
        (pre.length + hs.length + 1 + he.length + 1 + f1.length + 1 + f2.length + 1 + f3.length + 1
          + f4.length + (k + 1))
      = pre.length + hs.length + 1 + he.length + 1 + f1.length + 1 + f2.length + 1 + f3.length + 1
          + f4.length + (k + 1) + (d :: path).length :=
    skip_until_at B 10 buf
      (pre ++ hs ++ [45] ++ he ++ [32] ++ f1 ++ [32] ++ f2 ++ [32] ++ f3 ++ [32] ++ f4 ++
        List.replicate (k + 1) 32)
      (d :: path) rest
      _ B (by rw [← hbuf]; simp [listing_line]) (by simp; omega) (fun b hb => (hp b hb).2.1)
      (by simp; omega) (by simp; omega)
  have E : buf = (pre ++ hs ++ [45] ++ he ++ [32] ++ f1 ++ [32] ++ f2 ++ [32] ++ f3 ++ [32] ++ f4 ++
        List.replicate (k + 1) 32 ++ (d :: path)) ++ 10 :: rest := by
    rw [← hbuf]; simp [listing_line]
  have hY : pre.length + hs.length + 1 + he.length + 1 + f1.length + 1 + f2.length + 1 + f3.length + 1
          + f4.length + (k + 1) + (d :: path).length
      = (pre ++ hs ++ [45] ++ he ++ [32] ++ f1 ++ [32] ++ f2 ++ [32] ++ f3 ++ [32] ++ f4 ++
        List.replicate (k + 1) 32 ++ (d :: path)).length := by
    simp; omega
  have hX : pre.length + hs.length + 1 + he.length + 1 + f1.length + 1 + f2.length + 1 + f3.length + 1
          + f4.length + (k + 1)
      = (pre ++ hs ++ [45] ++ he ++ [32] ++ f1 ++ [32] ++ f2 ++ [32] ++ f3 ++ [32] ++ f4 ++
        List.replicate (k + 1) 32).length := by
    simp; omega
  have S11 : buf.set (pre.length + hs.length + 1 + he.length + 1 + f1.length + 1 + f2.length + 1
      + f3.length + 1 + f4.length + (k + 1) + (d :: path).length) 10 = buf := by
    rw [hY, E, set_at_length]
  have S12 : c_string (buf.set (pre.length + hs.length + 1 + he.length + 1 + f1.length + 1 + f2.length + 1
      + f3.length + 1 + f4.length + (k + 1) + (d :: path).length) 0)
        (pre.length + hs.length + 1 + he.length + 1 + f1.length + 1 + f2.length + 1 + f3.length + 1
          + f4.length + (k + 1)) = d :: path := by
    rw [hY, E, set_at_length, hX]
    exact c_string_run _ (d :: path) rest (fun b hb => (hp b hb).2.2)
  unfold parse_line
  simp only [S0, S1, S2, Nat.add_zero, S3, if_true, S4, ho, skip_fields,
    S5, S6, S7, S8, S9, S10, S11, S12]
  rw [if_pos (by simp only [List.length_cons]; omega)]

theorem lines_text_last (l : maps_line) : ∃ front, l.text = front ++ [10] := by
  refine ⟨l.hs ++ [45] ++ l.he ++ [32] ++ l.perms ++ [32] ++ l.offs ++ [32] ++ l.dev ++ [32]
    ++ l.inode ++ List.replicate (l.k + 1) 32 ++ l.path, ?_⟩
  simp [maps_line.text, listing_line]

theorem parse_line_at (o : options) (B : Nat) (ho : o.o_print_map_name = true)
    (l : maps_line) (pre rest : List Nat) (hl : l.wf)
    (hpre : pre = [] ∨ ∃ front, pre = front ++ [10])
    (hB : pre.length + l.text.length ≤ B) :
    parse_line o B (pre ++ l.text ++ rest) (pre.length + l.text.length - 1)
      = (l.range, pre ++ l.text ++ rest, status.ok) := by
  obtain ⟨hs, he, perms, offs, dev, inode, k, path⟩ := l
  obtain ⟨w1, w2, w3, w4, w5, w6, w7, w8, w9, w10⟩ := hl
  simp only at w1 w2 w3 w4 w5 w6 w7 w8 w9 w10
  cases path with
  | nil => exact absurd rfl w9
  | cons d path =>
    exact parse_line_listing o B hs he perms offs dev inode k d path pre rest hpre ho
      w1 w2 w3 w4 w5 w6 w7 w8 w10 hB

theorem line_no_newline (l : maps_line) (hl : l.wf) (pre rest : List Nat) (j : Nat)
    (h1 : pre.length ≤ j) (h2 : j + 1 < pre.length + l.text.length) :
    (pre ++ l.text ++ rest).getD j 0 ≠ 10 := by
  obtain ⟨hs, he, perms, offs, dev, inode, k, path⟩ := l
  obtain ⟨w1, w2, w3, w4, w5, w6, w7, w8, w9, w10⟩ := hl
  simp only at w1 w2 w3 w4 w5 w6 w7 w8 w9 w10
  have e : j = pre.length + (j - pre.length) := by omega
  rw [e, List.append_assoc, getD_shift]
  exact listing_line_no_newline hs he perms offs dev inode k path rest w1 w2 w5 w6 w7 w8 w10
    (j - pre.length) (by simp only [maps_line.text] at h2; omega)

theorem line_newline_at_end (l : maps_line) (pre rest : List Nat) :
    (pre ++ l.text ++ rest).getD (pre.length + l.text.length - 1) 0 = 10 ∧
    2 ≤ l.text.length := by
  obtain ⟨front, hf⟩ := lines_text_last l
  have hlen : 2 ≤ l.text.length := by
    have := listing_line_length l.hs l.he l.perms l.offs l.dev l.inode l.k l.path
    simp only [maps_line.text]; omega
  refine ⟨?_, hlen⟩
  rw [hf]
  have e : pre ++ (front ++ [10]) ++ rest = (pre ++ front) ++ 10 :: rest := by simp
  have e2 : pre.length + (front ++ [10]).length - 1 = (pre ++ front).length := by simp
  rw [e2, e, getD_at_length]

theorem scan_lines (o : options) (B : Nat) (ho : o.o_print_map_name = true) :
    ∀ (ls : List maps_line) (pre rest : List Nat), (∀ l ∈ ls, l.wf) →
      (pre = [] ∨ ∃ front, pre = front ++ [10]) →
      pre.length + (lines_text ls).length ≤ B →
      scan_buffer o B (lines_text ls).length pre.length (pre ++ lines_text ls ++ rest)
        = (ls.map maps_line.range, pre ++ lines_text ls ++ rest, status.ok) := by
  intro ls
  induction ls with
  | nil =>
    intro pre rest _ _ _
    simp [lines_text, scan_buffer]
  | cons l ls ih =>
    intro pre rest hwf hpre hB
    have hl : l.wf := hwf l (by simp)
    obtain ⟨hnl_end, hlen⟩ := line_newline_at_end l pre (lines_text ls ++ rest)
    obtain ⟨front, hfront⟩ := lines_text_last l
    simp only [lines_text, List.length_append] at hB ⊢
    have ebuf : pre ++ (l.text ++ lines_text ls) ++ rest
        = pre ++ l.text ++ (lines_text ls ++ rest) := by simp
    have ebuf2 : pre ++ l.text ++ (lines_text ls ++ rest)
        = (pre ++ l.text) ++ lines_text ls ++ rest := by simp
    rw [ebuf]
    have hsplit : l.text.length + (lines_text ls).length
        = (l.text.length - 1) + ((lines_text ls).length + 1) := by omega
    rw [hsplit, scan_buffer_skip o B _ ((lines_text ls).length + 1) (l.text.length - 1)
      pre.length (fun j h1 h2 => line_no_newline l hl pre _ j h1 (by omega)), scan_buffer]
    have hi : pre.length + (l.text.length - 1) = pre.length + l.text.length - 1 := by omega
    rw [hi, if_pos ⟨hnl_end, by omega⟩]
    simp only [parse_line_at o B ho l pre (lines_text ls ++ rest) hl hpre (by omega), if_true]
    have hnext : pre.length + l.text.length - 1 + 1 = (pre ++ l.text).length := by
      simp; omega
    rw [hnext, ebuf2, ih (pre ++ l.text) rest (fun x hx => hwf x (by simp [hx]))
      (Or.inr ⟨pre ++ front, by rw [hfront]; simp⟩) (by simp; omega)]
    simp

theorem read_loop_lines (o : options) (B : Nat) (ho : o.o_print_map_name = true) :
    ∀ (reads : List (List maps_line)) (buf : List Nat),
      (∀ r ∈ reads, r ≠ [] ∧ (∀ l ∈ r, l.wf) ∧ (lines_text r).length ≤ B) →
      read_loop o B (reads.map lines_text) buf = (ranges_of_reads reads, status.ok) := by
  intro reads
  induction reads with
  | nil => intro buf _; rfl
  | cons r reads ih =>
    intro buf h
    obtain ⟨hne, hwf, hB⟩ := h r (by simp)
    have hpos : (lines_text r).length ≠ 0 := by
      cases r with
      | nil => exact absurd rfl hne
      | cons l ls =>
        have := (line_newline_at_end l [] []).2
        simp only [lines_text, List.length_append]; omega
    have hscan := scan_lines o B ho r [] (buf.drop (lines_text r).length) hwf (Or.inl rfl)
      (by simpa using hB)
    simp only [List.nil_append, List.length_nil] at hscan
    simp only [List.map_cons, read_loop, if_neg hpos, List.take_zero, List.nil_append,
      Nat.zero_add, Nat.add_zero, Nat.sub_zero, hscan, if_true, ranges_of_reads]
    rw [ih _ (fun x hx => h x (by simp [hx]))]

/-- Claim C6: with name reporting requested, every line
`<hex-start>-<hex-end> <perms> <offset> <dev> <inode> <path>` with its newline - the two
numbers strings of at most 16 lowercase hexadecimal digits (empty ones included), the
four middle fields without space or newline, one or more spaces before the path, the path
non-empty and without space, newline or zero byte - yields exactly one range, with start
and end the values of the two numbers and the name equal to the path.  First, wherever
such a line stands in the read buffer - at its start or right after a newline, whatever
the bytes before and after it - as long as it fits, the code run at its newline hands
`read_vma` that range, leaves the buffer as it was and makes no access outside it.
Second, for every listing made of such lines and delivered by any number of reads each
of which holds whole lines and fits the buffer, `parse_maps` hands `read_vma` exactly the
ranges of the lines, one per line, in order, for every initial content of the buffer. -/
theorem parse_maps_listing_line (o : options) (BUFSIZ : Nat)
    (ho : o.o_print_map_name = true) :
    (∀ (l : maps_line) (pre rest : List Nat), l.wf →
      (pre = [] ∨ ∃ front, pre = front ++ [10]) →
      pre.length + l.text.length ≤ BUFSIZ →
      parse_line o BUFSIZ (pre ++ l.text ++ rest) (pre.length + l.text.length - 1)
        = (l.range, pre ++ l.text ++ rest, status.ok)) ∧
    (∀ (reads : List (List maps_line)) (buf : List Nat),
      (∀ r ∈ reads, r ≠ [] ∧ (∀ l ∈ r, l.wf) ∧ (lines_text r).length ≤ BUFSIZ) →
      parse_maps_calls o BUFSIZ true buf (reads.map lines_text)
        = (ranges_of_reads reads, status.ok)) := by
  refine ⟨fun l pre rest hl hpre hB => parse_line_at o BUFSIZ ho l pre rest hl hpre hB, ?_⟩
  intro reads buf h
  unfold parse_maps_calls
  rw [if_pos rfl]
  exact read_loop_lines o BUFSIZ ho reads buf h

/-- An instance of `parse_maps_listing_line` in a buffer of 8192 bytes: a first read with
the line `400000-401000 r-xp 00000000 00:00 0  /bin/true` and a second line, then a
read with a third line, give the three ranges in order, the first with start `0x400000`,
end `0x401000` and name `/bin/true`; and the second line of the first read, taken by
itself behind the first, gives its own range. -/
theorem parse_maps_listing_line_witness :
    lines_text
      [(⟨bytes "400000", bytes "401000", bytes "r-xp", bytes "00000000", bytes "00:00",
        bytes "0", 1, bytes "/bin/true"⟩ : maps_line),
       (⟨bytes "7f00a0000000", bytes "7f00a0021000", bytes "rw-p", bytes "00001000",
        bytes "08:01", bytes "131", 0, bytes "/lib/x.so"⟩ : maps_line)]
      = bytes ("400000-401000 r-xp 00000000 00:00 0  /bin/true\n" ++
          "7f00a0000000-7f00a0021000 rw-p 00001000 08:01 131 /lib/x.so\n") ∧
    ranges_of_reads
      [[⟨bytes "400000", bytes "401000", bytes "r-xp", bytes "00000000", bytes "00:00",
          bytes "0", 1, bytes "/bin/true"⟩,
        ⟨bytes "7f00a0000000", bytes "7f00a0021000", bytes "rw-p", bytes "00001000",
          bytes "08:01", bytes "131", 0, bytes "/lib/x.so"⟩],
       [⟨bytes "ffffffffff600000", bytes "ffffffffff601000", bytes "--xp", bytes "00000000",
          bytes "00:00", bytes "0", 18, bytes "[vsyscall]"⟩]]
      = [{ low := 0x400000, high := 0x401000, lib_name := some (bytes "/bin/true") },
         { low := 0x7f00a0000000, high := 0x7f00a0021000, lib_name := some (bytes "/lib/x.so") },
         { low := 0xffffffffff600000, high := 0xffffffffff601000,
           lib_name := some (bytes "[vsyscall]") }] ∧
    parse_maps_calls ⟨false, false, false, true⟩ 8192 true (List.replicate 8192 0)
      (List.map lines_text
        [[⟨bytes "400000", bytes "401000", bytes "r-xp", bytes "00000000", bytes "00:00",
          bytes "0", 1, bytes "/bin/true"⟩,
        ⟨bytes "7f00a0000000", bytes "7f00a0021000", bytes "rw-p", bytes "00001000",
          bytes "08:01", bytes "131", 0, bytes "/lib/x.so"⟩],
       [⟨bytes "ffffffffff600000", bytes "ffffffffff601000", bytes "--xp", bytes "00000000",
          bytes "00:00", bytes "0", 18, bytes "[vsyscall]"⟩]])
      = (ranges_of_reads
          [[⟨bytes "400000", bytes "401000", bytes "r-xp", bytes "00000000", bytes "00:00",
          bytes "0", 1, bytes "/bin/true"⟩,
        ⟨bytes "7f00a0000000", bytes "7f00a0021000", bytes "rw-p", bytes "00001000",
          bytes "08:01", bytes "131", 0, bytes "/lib/x.so"⟩],
       [⟨bytes "ffffffffff600000", bytes "ffffffffff601000", bytes "--xp", bytes "00000000",
          bytes "00:00", bytes "0", 18, bytes "[vsyscall]"⟩]], status.ok) ∧
    parse_line ⟨false, false, false, true⟩ 8192
      (maps_line.text (⟨bytes "400000", bytes "401000", bytes "r-xp", bytes "00000000", bytes "00:00",
        bytes "0", 1, bytes "/bin/true"⟩ : maps_line) ++ maps_line.text (⟨bytes "7f00a0000000", bytes "7f00a0021000", bytes "rw-p", bytes "00001000",
        bytes "08:01", bytes "131", 0, bytes "/lib/x.so"⟩ : maps_line) ++ List.replicate 8000 0)
      ((maps_line.text (⟨bytes "400000", bytes "401000", bytes "r-xp", bytes "00000000", bytes "00:00",
        bytes "0", 1, bytes "/bin/true"⟩ : maps_line)).length + (maps_line.text (⟨bytes "7f00a0000000", bytes "7f00a0021000", bytes "rw-p", bytes "00001000",
        bytes "08:01", bytes "131", 0, bytes "/lib/x.so"⟩ : maps_line)).length - 1)
      = (maps_line.range (⟨bytes "7f00a0000000", bytes "7f00a0021000", bytes "rw-p", bytes "00001000",
        bytes "08:01", bytes "131", 0, bytes "/lib/x.so"⟩ : maps_line),
          maps_line.text (⟨bytes "400000", bytes "401000", bytes "r-xp", bytes "00000000", bytes "00:00",
        bytes "0", 1, bytes "/bin/true"⟩ : maps_line) ++ maps_line.text (⟨bytes "7f00a0000000", bytes "7f00a0021000", bytes "rw-p", bytes "00001000",
        bytes "08:01", bytes "131", 0, bytes "/lib/x.so"⟩ : maps_line) ++ List.replicate 8000 0, status.ok) :=
  ⟨by decide, by decide,
    (parse_maps_listing_line ⟨false, false, false, true⟩ 8192 rfl).2
      [[⟨bytes "400000", bytes "401000", bytes "r-xp", bytes "00000000", bytes "00:00",
          bytes "0", 1, bytes "/bin/true"⟩,
        ⟨bytes "7f00a0000000", bytes "7f00a0021000", bytes "rw-p", bytes "00001000",
          bytes "08:01", bytes "131", 0, bytes "/lib/x.so"⟩],
       [⟨bytes "ffffffffff600000", bytes "ffffffffff601000", bytes "--xp", bytes "00000000",
          bytes "00:00", bytes "0", 18, bytes "[vsyscall]"⟩]] (List.replicate 8192 0) (by decide),
    (parse_maps_listing_line ⟨false, false, false, true⟩ 8192 rfl).1
      (⟨bytes "7f00a0000000", bytes "7f00a0021000", bytes "rw-p", bytes "00001000",
        bytes "08:01", bytes "131", 0, bytes "/lib/x.so"⟩ : maps_line) (maps_line.text (⟨bytes "400000", bytes "401000", bytes "r-xp", bytes "00000000", bytes "00:00",
        bytes "0", 1, bytes "/bin/true"⟩ : maps_line)) (List.replicate 8000 0) (by decide)
      (Or.inr ⟨bytes "400000-401000 r-xp 00000000 00:00 0  /bin/true", by decide⟩)
      (by decide)⟩

end ShowPagemap
